import Mathlib

/-! Puppet registry of the Meta bridge (`puppet.go`)

A shallow embedding of `puppet.go`: the remote-ID codec (`FormatPuppetMXID`,
`ParsePuppetMXID`), the puppet registry (`GetPuppetByID`, `GetPuppetByCustomMXID`,
`GetAllPuppetsWithCustomMXID`, `loadPuppet`), the profile synchroniser (`UpdateInfo`,
`updateName`, `updateAvatar`) and the acting-identity selector (`IntentFor`).

Go strings are lists of characters, `int64` values are integers with explicit range
hypotheses, pointers to puppets are indices into an arena, and every call to an external
collaborator (durable store, homeserver client, HTTP download) receives its outcome as an
explicit argument and is recorded in a trace.
-/

namespace Meta

/-- Go `string` (and `id.UserID`, `id.ContentURI` rendered as text). -/
abbrev Str := List Char

/-- Result of running a Go function: it returns, it panics, or the call leaves the fragment
of the standard library that this development models. -/
inductive Outcome (α : Type) where
  | ret (a : α)
  | panicked (msg : String)
  | unmodelled
  deriving Repr, DecidableEq

/-! ## `strconv` -/

/-- Decimal digit character of a number below ten. -/
def digitChar (d : Nat) : Char := Char.ofNat (48 + d)

/-- Value of a decimal digit character. -/
def digitVal (c : Char) : Nat := c.toNat - 48

/-- `'0' <= c && c <= '9'`. -/
def isDigit (c : Char) : Bool := decide (48 ≤ c.toNat) && decide (c.toNat ≤ 57)

/-- Digits of `n`, most significant first, pushed in front of `acc`. The first argument
bounds the number of digits produced. -/
def formatBits : Nat → Nat → Str → Str
  | 0, _, acc => acc
  | fuel + 1, n, acc =>
    if n < 10 then digitChar n :: acc
    else formatBits fuel (n / 10) (digitChar (n % 10) :: acc)

/-- `strconv.FormatUint(n, 10)`. -/
def FormatUint (n : Nat) : Str := formatBits (n + 1) n []

/-- `strconv.FormatInt(i, 10)`. -/
def FormatInt (i : Int) : Str :=
  if i < 0 then '-' :: FormatUint i.natAbs else FormatUint i.natAbs

/-- Accumulating loop of `strconv.ParseUint(s, 10, 64)` without the range check: `none`
when a byte is not a decimal digit. -/
def parseDigits : Str → Nat → Option Nat
  | [], acc => some acc
  | c :: cs, acc => if isDigit c then parseDigits cs (acc * 10 + digitVal c) else none

/-- `strconv.ParseInt(s, 10, 64)`; `none` stands for a non-nil error (syntax or range). -/
def ParseInt (s : Str) : Option Int :=
  match s with
  | [] => none
  | c :: cs =>
    let neg := c == '-'
    let body := if c == '+' || c == '-' then cs else s
    match body with
    | [] => none
    | _ :: _ =>
      match parseDigits body 0 with
      | none => none
      | some un =>
        if !neg && un ≥ 2 ^ 63 then none
        else if neg && un > 2 ^ 63 then none
        else some (if neg then -(un : Int) else (un : Int))

/-! ## `regexp`: the fragment of RE2 syntax used by the user-ID pattern -/

/-- Regular expressions of the modelled fragment. -/
inductive Regex where
  | empty
  | char (c : Char)
  | any
  | digit
  | bol
  | eol
  | cat (a b : Regex)
  | alt (a b : Regex)
  | star (a : Regex)
  | plus (a : Regex)
  | opt (a : Regex)
  | group (i : Nat) (a : Regex)
  deriving Repr, DecidableEq

/-- Whether the expression can match the empty string. -/
def Regex.nullable : Regex → Bool
  | .empty => true
  | .char _ => false
  | .any => false
  | .digit => false
  | .bol => true
  | .eol => true
  | .cat a b => a.nullable && b.nullable
  | .alt a b => a.nullable || b.nullable
  | .star _ => true
  | .plus a => a.nullable
  | .opt _ => true
  | .group _ a => a.nullable

/-- Concatenation of a list of expressions. -/
def mkCat (rs : List Regex) : Regex := rs.foldr Regex.cat Regex.empty

/-- Alternation of a non-empty list of expressions, first alternative first. -/
def mkAlt : List Regex → Regex
  | [] => Regex.empty
  | [r] => r
  | r :: rs => Regex.alt r (mkAlt rs)

/-- One open parenthesis level of the parser: finished alternatives and the items of the
current concatenation, both most recent first, and the capture index of the level. -/
structure Frame where
  alts : List Regex
  cur : List Regex
  idx : Nat
  deriving Repr, DecidableEq

/-- Expression of a closed level. -/
def Frame.close (f : Frame) : Regex := mkAlt ((mkCat f.cur.reverse :: f.alts).reverse)

/-- Parser state: enclosing levels, the innermost level, the number of capture groups
opened so far, and whether the previous token was a repetition operator. -/
structure PState where
  stack : List Frame
  top : Frame
  ngroups : Nat
  lastRep : Bool
  deriving Repr, DecidableEq

/-- Append an item to the current concatenation. -/
def PState.push (st : PState) (r : Regex) : PState :=
  { st with top := { st.top with cur := r :: st.top.cur }, lastRep := false }

/-- A compiled expression with its number of capture groups (`NumSubexp`). -/
structure Compiled where
  re : Regex
  ngroups : Nat
  deriving Repr, DecidableEq

/-- Apply a repetition operator to the last item of the current concatenation. -/
def PState.repeatLast (st : PState) (op : Regex → Regex) (rest : Str)
    (k : Str → PState → Outcome Compiled) : Outcome Compiled :=
  match st.top.cur with
  | [] => .panicked "regexp: missing argument to repetition operator"
  | r :: rs =>
    if st.lastRep then .unmodelled
    else if r.nullable then .unmodelled
    else k rest { st with top := { st.top with cur := op r :: rs }, lastRep := true }

/-- ASCII punctuation, which a backslash turns into a literal. -/
def isPunct (c : Char) : Bool :=
  (decide (33 ≤ c.toNat) && decide (c.toNat ≤ 47)) || (decide (58 ≤ c.toNat) && decide (c.toNat ≤ 64))
    || (decide (91 ≤ c.toNat) && decide (c.toNat ≤ 96)) || (decide (123 ≤ c.toNat) && decide (c.toNat ≤ 126))

/-- Parser of the fragment: literals, `.`, `\d`, escaped punctuation, `^`, `$`, capture
groups, `|`, and the greedy operators `*`, `+`, `?` on operands that cannot match the empty
string. Patterns that `regexp/syntax` rejects give `panicked` (as `MustCompile` does);
syntax outside the fragment gives `unmodelled`. -/
def parseLoop : Str → PState → Outcome Compiled
  | [], st =>
    match st.stack with
    | [] => .ret ⟨st.top.close, st.ngroups⟩
    | _ :: _ => .panicked "regexp: missing closing )"
  | c :: rest, st =>
    if c = '\\' then
      match rest with
      | [] => .panicked "regexp: trailing backslash at end of expression"
      | e :: rest2 =>
        if e = 'd' then parseLoop rest2 (st.push .digit)
        else if isPunct e then parseLoop rest2 (st.push (.char e))
        else .unmodelled
    else if c = '.' then parseLoop rest (st.push .any)
    else if c = '^' then parseLoop rest (st.push .bol)
    else if c = '$' then parseLoop rest (st.push .eol)
    else if c = '(' then
      match rest with
      | '?' :: _ => .unmodelled
      | _ =>
        parseLoop rest
          { stack := st.top :: st.stack, top := ⟨[], [], st.ngroups⟩,
            ngroups := st.ngroups + 1, lastRep := false }
    else if c = ')' then
      match st.stack with
      | [] => .panicked "regexp: unexpected )"
      | f :: fs =>
        parseLoop rest
          { stack := fs, top := { f with cur := .group st.top.idx st.top.close :: f.cur },
            ngroups := st.ngroups, lastRep := false }
    else if c = '|' then
      parseLoop rest
        { st with top := { st.top with alts := mkCat st.top.cur.reverse :: st.top.alts, cur := [] },
                  lastRep := false }
    else if c = '*' then st.repeatLast .star rest (fun _ st2 => parseLoop rest st2)
    else if c = '+' then st.repeatLast .plus rest (fun _ st2 => parseLoop rest st2)
    else if c = '?' then st.repeatLast .opt rest (fun _ st2 => parseLoop rest st2)
    else if c = '[' ∨ c = ']' ∨ c = '{' ∨ c = '}' then .unmodelled
    else parseLoop rest (st.push (.char c))

/-- `regexp.MustCompile(pattern)`. -/
def MustCompile (pattern : Str) : Outcome Compiled :=
  parseLoop pattern { stack := [], top := ⟨[], [], 0⟩, ngroups := 0, lastRep := false }

/-- Capture registers: the text of each group, `none` while unset. -/
abbrev Caps := List (Option Str)

/-- Greedy iteration: run `step` as often as possible, each round consuming input, then
the continuation. -/
def starLoop {ρ : Type} (step : Str → Caps → (Str → Caps → Option ρ) → Option ρ)
    (k : Str → Caps → Option ρ) : Nat → Str → Caps → Option ρ
  | 0, s, c => k s c
  | fuel + 1, s, c =>
    match step s c (fun s2 c2 => if s2.length < s.length then starLoop step k fuel s2 c2 else none) with
    | some r => some r
    | none => k s c

/-- Backtracking matcher with leftmost-first preference. `n` is the length of the whole
text, `s` the unread suffix, `k` what remains to be matched afterwards. -/
def Regex.matchK {ρ : Type} : Regex → Nat → Str → Caps → (Str → Caps → Option ρ) → Option ρ
  | .empty, _, s, c, k => k s c
  | .char a, _, s, c, k =>
    match s with
    | [] => none
    | x :: xs => if x = a then k xs c else none
  | .any, _, s, c, k =>
    match s with
    | [] => none
    | x :: xs => if x = '\n' then none else k xs c
  | .digit, _, s, c, k =>
    match s with
    | [] => none
    | x :: xs => if isDigit x then k xs c else none
  | .bol, n, s, c, k => if s.length = n then k s c else none
  | .eol, _, s, c, k =>
    match s with
    | [] => k [] c
    | _ :: _ => none
  | .cat a b, n, s, c, k => a.matchK n s c (fun s2 c2 => b.matchK n s2 c2 k)
  | .alt a b, n, s, c, k =>
    match a.matchK n s c k with
    | some r => some r
    | none => b.matchK n s c k
  | .star a, n, s, c, k => starLoop (fun s2 c2 k2 => a.matchK n s2 c2 k2) k s.length s c
  | .plus a, n, s, c, k =>
    a.matchK n s c (fun s2 c2 => starLoop (fun s3 c3 k3 => a.matchK n s3 c3 k3) k s2.length s2 c2)
  | .opt a, n, s, c, k =>
    match a.matchK n s c k with
    | some r => some r
    | none => k s c
  | .group i a, n, s, c, k =>
    a.matchK n s c (fun s2 c2 => k s2 (c2.set i (some (s.take (s.length - s2.length)))))

/-- Match starting exactly at the suffix `s` of a text of length `n`: the matched text
followed by the text of every group (empty for a group that took no part). -/
def matchAt (p : Compiled) (n : Nat) (s : Str) : Option (List Str) :=
  p.re.matchK n s (List.replicate p.ngroups none)
    (fun s2 c2 => some (s.take (s.length - s2.length) :: c2.map (fun o => o.getD [])))

/-- Leftmost match: try every start offset in order. -/
def searchFrom (p : Compiled) (n : Nat) : Str → Option (List Str)
  | [] => matchAt p n []
  | x :: xs =>
    match matchAt p n (x :: xs) with
    | some r => some r
    | none => searchFrom p n xs

/-- `re.FindStringSubmatch(s)`; `nil` is the empty list. -/
def FindStringSubmatch (p : Compiled) (s : Str) : List Str :=
  (searchFrom p s.length s).getD []

/-! ### Shapes used to describe the user-ID pattern -/

/-- Characters that the pattern parser reads as themselves. -/
def litOK (c : Char) : Bool :=
  !(c == '\\' || c == '.' || c == '^' || c == '$' || c == '(' || c == ')' || c == '|'
    || c == '*' || c == '+' || c == '?' || c == '[' || c == ']' || c == '{' || c == '}')

/-- Characters of a template or domain whose pattern matches the character itself: literal
characters and the dot. -/
def patChar (c : Char) : Bool := litOK c || c == '.'

/-- The pattern item that the parser produces for a `patChar`. -/
def atomOf (c : Char) : Regex := if c = '.' then .any else .char c

/-- The expression compiled from the user-ID pattern of a template `pre{{.}}post` whose
text is made of `patChar`s. -/
def userIDExpr (a b : Str) : Regex :=
  mkCat (Regex.bol :: (a.map atomOf ++
    Regex.group 0 (mkCat [Regex.plus Regex.digit]) :: (b.map atomOf ++ [Regex.eol])))

/-- The step of the loop compiled from `\d+`. -/
def digitStep {ρ : Type} (n : Nat) : Str → Caps → (Str → Caps → Option ρ) → Option ρ :=
  fun s3 c3 k3 => Regex.digit.matchK n s3 c3 k3

/-! ## Configuration -/

/-- Arguments of the display-name template (`config.DisplaynameParams`). -/
structure DisplaynameParams where
  DisplayName : Str
  Username : Str
  ID : Int

/-- The parts of the bridge configuration read by `puppet.go`. `FormatUsername` and
`FormatDisplayname` are the template functions of the bridge configuration, `Domain` is
`Homeserver.Domain`. -/
structure Config where
  FormatUsername : Str → Str
  FormatDisplayname : DisplaynameParams → Str
  Domain : Str

/-- `id.NewUserID(localpart, homeserver)`. -/
def NewUserID (localpart homeserver : Str) : Str := '@' :: (localpart ++ ':' :: homeserver)

/-! ## Remote-ID codec -/

/-- `MetaBridge.FormatPuppetMXID`. -/
def FormatPuppetMXID (cfg : Config) (userID : Int) : Str :=
  NewUserID (cfg.FormatUsername (FormatInt userID)) cfg.Domain

/-- The pattern text built by `ParsePuppetMXID`: `fmt.Sprintf("^@%s:%s$", ...)`. -/
def userIDPattern (cfg : Config) : Str :=
  "^@".toList ++ cfg.FormatUsername "(\\d+)".toList ++ ":".toList ++ cfg.Domain ++ "$".toList

/-- `MetaBridge.ParsePuppetMXID`. The package-level `userIDRegex` is passed in and handed
back: `none` is the nil pointer before the first use. -/
def ParsePuppetMXID (cfg : Config) (userIDRegex : Option Compiled) (mxid : Str) :
    Outcome ((Int × Bool) × Option Compiled) :=
  let compiled : Outcome Compiled :=
    match userIDRegex with
    | some re => .ret re
    | none => MustCompile (userIDPattern cfg)
  match compiled with
  | .panicked msg => .panicked msg
  | .unmodelled => .unmodelled
  | .ret re =>
    let m := FindStringSubmatch re mxid
    match m with
    | [_, g] =>
      match ParseInt g with
      | none => .ret ((0, false), some re)
      | some parsed => .ret ((parsed, true), some re)
    | _ => .ret ((0, false), some re)

/-- Configuration of the running example: username template `meta_{{.}}` on
`example.org`. -/
def exampleConfig : Config :=
  { FormatUsername := fun s => "meta_".toList ++ s
    FormatDisplayname := fun p => p.DisplayName
    Domain := "example.org".toList }

/-! ## Data model -/

/-- `appservice.IntentAPI`, identified by the user it acts as. -/
structure IntentAPI where
  UserID : Str
  deriving Repr, DecidableEq

/-- `bridge.AS.Intent(mxid)`: the application-service intent of a user ID. -/
def Intent (mxid : Str) : IntentAPI := ⟨mxid⟩

/-- The fields of `database.Puppet` that `puppet.go` reads or writes. An empty `CustomMXID`
means that no custom identity is bound; an empty `AvatarURL` is the zero `id.ContentURI`. -/
structure DbPuppet where
  ID : Int
  Name : Str
  NameSet : Bool
  Username : Str
  AvatarID : Str
  AvatarURL : Str
  AvatarSet : Bool
  ContactInfoSet : Bool
  CustomMXID : Str
  deriving Repr, DecidableEq

/-- The `Puppet` struct: the embedded `*database.Puppet`, the `MXID` and the custom intent
(`none` is nil). -/
structure Puppet where
  db : DbPuppet
  MXID : Str
  customIntent : Option IntentAPI
  deriving Repr, DecidableEq

/-! ## Durable store -/

/-- Modelled from the spec: `database.PuppetQuery.New` (package `database` is absent), a
record with every field at its zero value. -/
def DbPuppet.New : DbPuppet :=
  { ID := 0, Name := [], NameSet := false, Username := [], AvatarID := [], AvatarURL := [],
    AvatarSet := false, ContactInfoSet := false, CustomMXID := [] }

/-- Modelled from the spec: `database.PuppetQuery.GetByID` (package `database` is absent),
the record whose primary key `RemoteID` is `id`, if any. -/
def StoreGetByID (rows : List DbPuppet) (id : Int) : Option DbPuppet :=
  rows.find? (fun r => decide (r.ID = id))

/-- Modelled from the spec: `database.PuppetQuery.GetByCustomMXID` (package `database` is
absent), the record bound to the custom identity `mxid`; a record without a bound identity
is keyed by none. -/
def StoreGetByCustomMXID (rows : List DbPuppet) (mxid : Str) : Option DbPuppet :=
  rows.find? (fun r => decide (r.CustomMXID = mxid) && decide (r.CustomMXID ≠ []))

/-- Modelled from the spec: `database.PuppetQuery.GetAllWithCustomMXID` (package `database`
is absent), every record with a bound custom identity. -/
def StoreGetAllWithCustomMXID (rows : List DbPuppet) : List DbPuppet :=
  rows.filter (fun r => decide (r.CustomMXID ≠ []))

/-- Modelled from the spec: `database.Puppet.Insert` (package `database` is absent), the
store with the record added. -/
def StoreInsert (rows : List DbPuppet) (r : DbPuppet) : List DbPuppet := rows ++ [r]

/-- A call received by the durable store. -/
inductive StoreCall where
  | getByID (id : Int)
  | getByCustomMXID (mxid : Str)
  | getAllWithCustomMXID
  | insert (id : Int)
  deriving Repr, DecidableEq

/-- What the store answers during one registry call: whether its query returns an error and
whether its insert returns an error. -/
structure Faults where
  query : Bool
  insert : Bool
  deriving Repr, DecidableEq

/-! ## Identity registry -/

/-- The parts of `MetaBridge` used by the registry. Pointers to puppets are indices into
`arena`, which holds every `Puppet` constructed so far; `trace` lists the calls received by
the store. -/
structure MetaBridge where
  Config : Config
  puppets : Int → Option Nat
  puppetsByCustomMXID : Str → Option Nat
  arena : List Puppet
  DB : List DbPuppet
  trace : List StoreCall

/-- Map assignment `m[k] = p`. -/
def setKey {κ : Type} [DecidableEq κ] (m : κ → Option Nat) (k : κ) (p : Nat) : κ → Option Nat :=
  fun j => if j = k then some p else m j

/-- `MetaBridge.NewPuppet`. -/
def NewPuppet (br : MetaBridge) (dbPuppet : DbPuppet) : Puppet :=
  { db := dbPuppet, MXID := FormatPuppetMXID br.Config dbPuppet.ID, customIntent := none }

/-- The tail of `loadPuppet` once a record is at hand: construct the puppet and enter it
into both maps. -/
def cachePuppet (br : MetaBridge) (dbPuppet : DbPuppet) : Option Nat × MetaBridge :=
  let puppet := NewPuppet br dbPuppet
  let p := br.arena.length
  let br1 : MetaBridge :=
    { br with arena := br.arena ++ [puppet], puppets := setKey br.puppets puppet.db.ID p }
  if puppet.db.CustomMXID ≠ [] then
    (some p, { br1 with
      puppetsByCustomMXID := setKey br1.puppetsByCustomMXID puppet.db.CustomMXID p })
  else (some p, br1)

/-- `MetaBridge.loadPuppet`; `none` is a nil argument or a nil result. -/
def loadPuppet (br : MetaBridge) (f : Faults) (dbPuppet : Option DbPuppet) (userID : Option Int) :
    Option Nat × MetaBridge :=
  match dbPuppet with
  | some row => cachePuppet br row
  | none =>
    match userID with
    | none => (none, br)
    | some uid =>
      let row : DbPuppet := { DbPuppet.New with ID := uid }
      let br1 : MetaBridge := { br with trace := br.trace ++ [StoreCall.insert uid] }
      if f.insert then (none, br1)
      else cachePuppet { br1 with DB := StoreInsert br1.DB row } row

/-- `MetaBridge.GetPuppetByID`. -/
def GetPuppetByID (br : MetaBridge) (f : Faults) (id : Int) : Outcome (Option Nat × MetaBridge) :=
  if id = 0 then .panicked "User ID not provided"
  else
    match br.puppets id with
    | some puppet => .ret (some puppet, br)
    | none =>
      let br1 : MetaBridge := { br with trace := br.trace ++ [StoreCall.getByID id] }
      if f.query then .ret (none, br1)
      else .ret (loadPuppet br1 f (StoreGetByID br1.DB id) (some id))

/-- `MetaBridge.GetPuppetByCustomMXID`. -/
def GetPuppetByCustomMXID (br : MetaBridge) (f : Faults) (mxid : Str) : Option Nat × MetaBridge :=
  match br.puppetsByCustomMXID mxid with
  | some puppet => (some puppet, br)
  | none =>
    let br1 : MetaBridge := { br with trace := br.trace ++ [StoreCall.getByCustomMXID mxid] }
    if f.query then (none, br1)
    else loadPuppet br1 f (StoreGetByCustomMXID br1.DB mxid) none

/-- `MetaBridge.dbPuppetsToPuppets`; a nil entry of the input leaves a nil entry in the
output. -/
def dbPuppetsToPuppets (f : Faults) : List (Option DbPuppet) → MetaBridge → List (Option Nat) × MetaBridge
  | [], br => ([], br)
  | none :: rest, br =>
    let r := dbPuppetsToPuppets f rest br
    (none :: r.1, r.2)
  | some dbPuppet :: rest, br =>
    match br.puppets dbPuppet.ID with
    | some puppet =>
      let r := dbPuppetsToPuppets f rest br
      (some puppet :: r.1, r.2)
    | none =>
      let l := loadPuppet br f (some dbPuppet) none
      let r := dbPuppetsToPuppets f rest l.2
      (l.1 :: r.1, r.2)

/-- `MetaBridge.GetAllPuppetsWithCustomMXID`; `none` is the nil slice returned on error. -/
def GetAllPuppetsWithCustomMXID (br : MetaBridge) (f : Faults) :
    Option (List (Option Nat)) × MetaBridge :=
  let br1 : MetaBridge := { br with trace := br.trace ++ [StoreCall.getAllWithCustomMXID] }
  if f.query then (none, br1)
  else
    let r := dbPuppetsToPuppets f ((StoreGetAllWithCustomMXID br1.DB).map some) br1
    (some r.1, r.2)

/-- `N` successive calls `GetPuppetByID(id)`, one store answer per call: the results and
the final state. A panicking call ends the sequence. -/
def GetPuppetByIDTimes (id : Int) : List Faults → MetaBridge → List (Option Nat) × MetaBridge
  | [], br => ([], br)
  | f :: fs, br =>
    match GetPuppetByID br f id with
    | .ret r =>
      let rs := GetPuppetByIDTimes id fs r.2
      (r.1 :: rs.1, rs.2)
    | _ => ([], br)

/-- A registry operation together with the store's answers during it. -/
inductive RegistryOp where
  | getPuppetByID (id : Int) (f : Faults)
  | getPuppetByCustomMXID (mxid : Str) (f : Faults)
  | getAllPuppetsWithCustomMXID (f : Faults)
  deriving Repr, DecidableEq

/-- State after one registry operation; a panicking call leaves the state as it was. -/
def RegistryOp.run (op : RegistryOp) (br : MetaBridge) : MetaBridge :=
  match op with
  | .getPuppetByID id f =>
    match GetPuppetByID br f id with
    | .ret r => r.2
    | _ => br
  | .getPuppetByCustomMXID mxid f => (GetPuppetByCustomMXID br f mxid).2
  | .getAllPuppetsWithCustomMXID f => (GetAllPuppetsWithCustomMXID br f).2

/-- State after a sequence of registry operations. -/
def runOps (ops : List RegistryOp) (br : MetaBridge) : MetaBridge :=
  ops.foldl (fun b op => op.run b) br

/-- Modelled from the spec: the bridge as constructed at start-up (the constructor in
`main.go` is absent). No puppet exists before its first cache miss, so both maps and the
arena are empty; the store holds whatever records it holds. -/
def startBridge (cfg : Config) (rows : List DbPuppet) : MetaBridge :=
  { Config := cfg, puppets := fun _ => none, puppetsByCustomMXID := fun _ => none, arena := [],
    DB := rows, trace := [] }

/-- Registry invariant: store keys are unique; a primary-map entry points at a puppet with
that remote ID; every constructed puppet is the primary-map entry of its remote ID; and a
stored record that is cached and bound has its custom identity in the secondary map. -/
structure RegistryInv (br : MetaBridge) : Prop where
  nodup : (br.DB.map (fun r => r.ID)).Nodup
  cacheOK : ∀ id p, br.puppets id = some p → ∃ pu, br.arena[p]? = some pu ∧ pu.db.ID = id
  arenaOK : ∀ q pu, br.arena[q]? = some pu → br.puppets pu.db.ID = some q
  customOK : ∀ r ∈ br.DB, r.CustomMXID ≠ [] → br.puppets r.ID ≠ none →
    br.puppetsByCustomMXID r.CustomMXID ≠ none

/-! ## Acting-identity selector -/

/-- The parts of `Portal` read by `IntentFor`: the thread ID and the answer of
`portal.IsPrivateChat()`. -/
structure Portal where
  ThreadID : Int
  IsPrivateChat : Bool
  deriving Repr, DecidableEq

/-- `Puppet.DefaultIntent`. -/
def Puppet.DefaultIntent (puppet : Puppet) : IntentAPI := Intent puppet.MXID

/-- `Puppet.IntentFor`; the receiver may be nil (`none`), and so may the result. -/
def IntentFor (puppet : Option Puppet) (portal : Portal) : Option IntentAPI :=
  match puppet with
  | some puppet =>
    if puppet.customIntent = none ∨ (portal.IsPrivateChat = true ∧ portal.ThreadID = puppet.db.ID) then
      some puppet.DefaultIntent
    else puppet.customIntent
  | none => none

/-! ## `net/url` and `path` -/

/-- `stringContainsCTLByte` of `net/url`: some byte is below `' '` or is `0x7f`. -/
def stringContainsCTLByte (s : Str) : Bool :=
  s.any (fun c => decide (c.toNat < 32) || decide (c.toNat = 127))

/-- `url.Parse(rawURL)`, reduced to the `Path` of the URL it returns; `none` is the
`(nil, err)` return. The parser cuts the text at the first `#` and rejects a control byte
in front of it; `parseRest` stands for all further parsing, which may reject as well. -/
def urlParsePath (parseRest : Str → Option Str) (rawURL : Str) : Option Str :=
  if stringContainsCTLByte (rawURL.takeWhile (fun c => c != '#')) then none
  else parseRest rawURL

/-- `path.Base`. -/
def pathBase (p : Str) : Str :=
  if p = [] then ['.']
  else
    let stripped := (p.reverse.dropWhile (fun c => c == '/')).reverse
    let last := (stripped.reverse.takeWhile (fun c => c != '/')).reverse
    if last = [] then ['/'] else last

/-! ## Profile synchroniser -/

/-- A remote profile snapshot (`types.UserInfo`): the values of `GetUsername`, `GetName`
and `GetAvatarURL`. -/
structure UserInfo where
  Username : Str
  Name : Str
  AvatarURL : Str
  deriving Repr, DecidableEq

/-- A call that leaves the process: to the homeserver client, to the avatar host, to the
store, or the detached portal refresh. -/
inductive NetCall where
  | setDisplayName (mxid name : Str)
  | downloadAvatar (url : Str)
  | uploadBytes (data : List Nat) (contentType : Str)
  | setAvatarURL (uri : Str)
  | beeperUpdateProfile (identifiers : List Str) (remoteID : Int) (service network : Str)
  | dbUpdate (row : DbPuppet)
  | updatePortalMeta (id : Int)
  deriving Repr, DecidableEq

/-- What the collaborators answer during one call of the synchroniser. An `Err` flag is a
non-nil error; `download` is the downloaded bytes and `upload` the content URI of the
response, `none` for an error. -/
structure Replies where
  setDisplayNameErr : Bool
  download : Option (List Nat)
  upload : Option Str
  setAvatarErr : Bool
  updateProfileErr : Bool
  dbUpdateErr : Bool
  deriving Repr, DecidableEq

/-- The surroundings of the synchroniser that do not change between calls:
`SpecVersions.Supports(BeeperFeatureArbitraryProfileMeta)`, the bridge's network and service
names, `http.DetectContentType`, and the part of `url.Parse` behind its control-byte check. -/
structure Env where
  supportsProfileMeta : Bool
  BeeperNetworkName : Str
  BeeperServiceName : Str
  DetectContentType : List Nat → Str
  parseRest : Str → Option Str

/-- The three avatar fields that `updateAvatar` receives by pointer. -/
structure AvatarState where
  avatarID : Str
  avatarSet : Bool
  avatarURL : Str
  deriving Repr, DecidableEq

/-- The fingerprint computed at the head of `updateAvatar`: empty for an empty URL,
otherwise `path.Base` of the parsed URL's path. The result of `url.Parse` is dereferenced
without looking at its error, so a rejected URL is a nil-pointer panic. -/
def newAvatarIDOf (env : Env) (newAvatarURL : Str) : Outcome Str :=
  if newAvatarURL ≠ [] then
    match urlParsePath env.parseRest newAvatarURL with
    | none => .panicked "runtime error: invalid memory address or nil pointer dereference"
    | some p => .ret (pathBase p)
  else .ret []

/-- The function `updateAvatar`. `haveSetAvatar` tells whether the `setAvatar` argument
is a function (`false`: nil). The result is the returned boolean, the avatar fields as left
behind, and the calls made. -/
def updateAvatar (env : Env) (rp : Replies) (newAvatarURL : Str) (a : AvatarState)
    (haveSetAvatar : Bool) : Outcome (Bool × AvatarState × List NetCall) :=
  match newAvatarIDOf env newAvatarURL with
  | .panicked msg => .panicked msg
  | .unmodelled => .unmodelled
  | .ret newAvatarID =>
    if a.avatarID = newAvatarID ∧ (a.avatarSet = true ∨ haveSetAvatar = false) then
      .ret (false, a, [])
    else
      let a1 : AvatarState := { avatarID := newAvatarID, avatarSet := false, avatarURL := [] }
      if newAvatarID = [] then
        if haveSetAvatar = false then .ret (true, a1, [])
        else if rp.setAvatarErr then .ret (true, a1, [NetCall.setAvatarURL []])
        else .ret (true, { a1 with avatarSet := true }, [NetCall.setAvatarURL []])
      else
        match rp.download with
        | none => .ret (true, a1, [NetCall.downloadAvatar newAvatarURL])
        | some avatarData =>
          let avatarContentType := env.DetectContentType avatarData
          match rp.upload with
          | none =>
            .ret (true, a1, [NetCall.downloadAvatar newAvatarURL,
              NetCall.uploadBytes avatarData avatarContentType])
          | some uri =>
            let a2 : AvatarState := { a1 with avatarURL := uri }
            if haveSetAvatar = false then
              .ret (true, a2, [NetCall.downloadAvatar newAvatarURL,
                NetCall.uploadBytes avatarData avatarContentType])
            else if rp.setAvatarErr then
              .ret (true, a2, [NetCall.downloadAvatar newAvatarURL,
                NetCall.uploadBytes avatarData avatarContentType, NetCall.setAvatarURL uri])
            else
              .ret (true, { a2 with avatarSet := true }, [NetCall.downloadAvatar newAvatarURL,
                NetCall.uploadBytes avatarData avatarContentType, NetCall.setAvatarURL uri])

/-- The method `Puppet.updateAvatar`: `updateAvatar` on the puppet's own avatar fields with
the default intent's `SetAvatarURL` as `setAvatar`. -/
def Puppet.updateAvatar (env : Env) (rp : Replies) (puppet : Puppet) (avatarURL : Str) :
    Outcome (Bool × Puppet × List NetCall) :=
  match Meta.updateAvatar env rp avatarURL
      ⟨puppet.db.AvatarID, puppet.db.AvatarSet, puppet.db.AvatarURL⟩ true with
  | .panicked msg => .panicked msg
  | .unmodelled => .unmodelled
  | .ret r =>
    .ret (r.1, { puppet with db := { puppet.db with
      AvatarID := r.2.1.avatarID, AvatarSet := r.2.1.avatarSet, AvatarURL := r.2.1.avatarURL } },
      r.2.2)

/-- `Puppet.updateName`. -/
def Puppet.updateName (cfg : Config) (rp : Replies) (puppet : Puppet) (name username : Str) :
    Bool × Puppet × List NetCall :=
  let newName := cfg.FormatDisplayname ⟨name, username, puppet.db.ID⟩
  if puppet.db.NameSet = true ∧ puppet.db.Name = newName then (false, puppet, [])
  else
    let p1 : Puppet := { puppet with db := { puppet.db with Name := newName, NameSet := false } }
    if rp.setDisplayNameErr then (true, p1, [NetCall.setDisplayName puppet.MXID newName])
    else
      (true, { p1 with db := { p1.db with NameSet := true } },
        [NetCall.setDisplayName puppet.MXID newName])

/-- `Puppet.UpdateContactInfo`. -/
def Puppet.UpdateContactInfo (env : Env) (rp : Replies) (puppet : Puppet) : Puppet × List NetCall :=
  if env.supportsProfileMeta = false ∨ puppet.db.ContactInfoSet = true then (puppet, [])
  else
    let identifiers : List Str :=
      if puppet.db.Username ≠ [] then [env.BeeperNetworkName ++ ':' :: puppet.db.Username] else []
    let call := NetCall.beeperUpdateProfile identifiers puppet.db.ID env.BeeperServiceName
      env.BeeperNetworkName
    if rp.updateProfileErr then (puppet, [call])
    else ({ puppet with db := { puppet.db with ContactInfoSet := true } }, [call])

/-- `Puppet.UpdateInfo`; `none` is a nil snapshot. The result is the puppet as left behind
and the calls made, in order. -/
def Puppet.UpdateInfo (cfg : Config) (env : Env) (rp : Replies) (puppet : Puppet)
    (info : Option UserInfo) : Outcome (Puppet × List NetCall) :=
  match info with
  | none => .ret (puppet, [])
  | some info =>
    let update0 : Bool := decide (puppet.db.Username ≠ info.Username)
    let p0 : Puppet :=
      if update0 then { puppet with db := { puppet.db with Username := info.Username } } else puppet
    let n := p0.updateName cfg rp info.Name p0.db.Username
    match n.2.1.updateAvatar env rp info.AvatarURL with
    | .panicked msg => .panicked msg
    | .unmodelled => .unmodelled
    | .ret a =>
      let update : Bool := a.1 || (n.1 || update0)
      if update then
        let p3 : Puppet := { a.2.1 with db := { a.2.1.db with ContactInfoSet := false } }
        let c := p3.UpdateContactInfo env rp
        .ret (c.1, n.2.2 ++ a.2.2 ++ c.2 ++
          [NetCall.dbUpdate c.1.db, NetCall.updatePortalMeta c.1.db.ID])
      else .ret (a.2.1, n.2.2 ++ a.2.2)

/-- Surroundings of the running example: a homeserver with profile metadata support. The
two library stand-ins are meant for the inputs of the examples only: `DetectContentType`
knows the JPEG signature `FF D8 FF` and calls everything else `application/octet-stream`,
and `parseRest` takes what follows `scheme://host` as the path without checking escapes. -/
def exampleEnv : Env :=
  { supportsProfileMeta := true, BeeperNetworkName := "instagram".toList,
    BeeperServiceName := "instagramgo".toList,
    DetectContentType := fun d =>
      if d.take 3 = [255, 216, 255] then "image/jpeg".toList
      else "application/octet-stream".toList,
    parseRest := fun s =>
      some (((s.dropWhile (fun c => c != '/')).dropWhile (fun c => c == '/')).dropWhile
        (fun c => c != '/')) }

/-- Replies in which every collaborator succeeds; the download starts with the JPEG
signature. -/
def allOK : Replies :=
  { setDisplayNameErr := false, download := some [255, 216, 255, 224],
    upload := some "mxc://example.org/abc".toList,
    setAvatarErr := false, updateProfileErr := false, dbUpdateErr := false }

/-- A puppet as `loadPuppet` creates it for remote ID 42. -/
def freshPuppet : Puppet :=
  { db := { DbPuppet.New with ID := 42 }, MXID := FormatPuppetMXID exampleConfig 42,
    customIntent := none }

/-- The snapshot of the running example. -/
def aliceInfo : UserInfo :=
  { Username := "alice".toList, Name := "Alice".toList, AvatarURL := [] }

/-! ## Lemmas on `strconv` -/

theorem digitChar_spec : ∀ d, d < 10 → isDigit (digitChar d) = true ∧ digitVal (digitChar d) = d := by
  decide

theorem parseDigits_append (l1 l2 : Str) (a : Nat) :
    parseDigits (l1 ++ l2) a = (parseDigits l1 a).bind (parseDigits l2) := by
  induction l1 generalizing a with
  | nil => simp [parseDigits]
  | cons c cs ih =>
    simp only [List.cons_append, parseDigits]
    split
    · exact ih _
    · rfl

/-- The digits produced for `n` are a non-empty run of decimal digits that reads back as `n`. -/
theorem formatBits_spec (fuel n : Nat) (acc : Str) (h : n < fuel) :
    ∃ l, formatBits fuel n acc = l ++ acc ∧ l ≠ [] ∧ (∀ c ∈ l, isDigit c = true) ∧
      parseDigits l 0 = some n := by
  induction fuel generalizing n acc with
  | zero => omega
  | succ fuel ih =>
    unfold formatBits
    by_cases hn : n < 10
    · rw [if_pos hn]
      refine ⟨[digitChar n], rfl, by simp, ?_, ?_⟩
      · intro c hc
        simp only [List.mem_singleton] at hc
        subst hc
        exact (digitChar_spec n hn).1
      · simp [parseDigits, (digitChar_spec n hn).1, (digitChar_spec n hn).2]
    · rw [if_neg hn]
      have hlt : n / 10 < fuel := by omega
      obtain ⟨l, hl, _, hdig, hval⟩ := ih (n / 10) (digitChar (n % 10) :: acc) hlt
      have hm : n % 10 < 10 := Nat.mod_lt _ (by decide)
      refine ⟨l ++ [digitChar (n % 10)], by simp [hl], by simp, ?_, ?_⟩
      · intro c hc
        rcases List.mem_append.mp hc with hc | hc
        · exact hdig c hc
        · simp only [List.mem_singleton] at hc
          subst hc
          exact (digitChar_spec _ hm).1
      · rw [parseDigits_append, hval]
        simp only [Option.some_bind, parseDigits, (digitChar_spec _ hm).1, (digitChar_spec _ hm).2,
          if_true]
        congr 1
        omega

theorem FormatUint_spec (n : Nat) :
    FormatUint n ≠ [] ∧ (∀ c ∈ FormatUint n, isDigit c = true) ∧ parseDigits (FormatUint n) 0 = some n := by
  obtain ⟨l, hl, hne, hdig, hval⟩ := formatBits_spec (n + 1) n [] (Nat.lt_succ_self n)
  have : FormatUint n = l := by simp [FormatUint, hl]
  rw [this]
  exact ⟨hne, hdig, hval⟩

theorem isDigit_ne_sign (c : Char) (h : isDigit c = true) : (c == '+') = false ∧ (c == '-') = false := by
  constructor
  · by_contra hc
    have : c = '+' := by simpa using hc
    subst this
    exact absurd h (by decide)
  · by_contra hc
    have : c = '-' := by simpa using hc
    subst this
    exact absurd h (by decide)

/-- `ParseInt` reads a run of digits without sign as its value when that fits `int64`. -/
theorem ParseInt_digits (l : Str) (n : Nat) (hne : l ≠ []) (hdig : ∀ c ∈ l, isDigit c = true)
    (hval : parseDigits l 0 = some n) (hmax : n < 2 ^ 63) : ParseInt l = some (n : Int) := by
  cases l with
  | nil => exact absurd rfl hne
  | cons c cs =>
    have hc := isDigit_ne_sign c (hdig c (List.mem_cons_self _ _))
    have hlt : n < 9223372036854775808 := by omega
    simp [ParseInt, hc.1, hc.2, hval, hlt]

theorem ParseInt_FormatInt (x : Int) (hpos : 0 < x) (hmax : x < 2 ^ 63) :
    ParseInt (FormatInt x) = some x := by
  obtain ⟨hne, hdig, hval⟩ := FormatUint_spec x.natAbs
  have hx : ((x.natAbs : Nat) : Int) = x := by omega
  have hnot : ¬ x < 0 := by omega
  have hb : x.natAbs < 2 ^ 63 := by omega
  simp only [FormatInt, if_neg hnot]
  rw [ParseInt_digits _ _ hne hdig hval hb, hx]

/-! ## Lemmas on the pattern parser -/

theorem parseLoop_patChar (c : Char) (rest : Str) (st : PState) (h : patChar c = true) :
    parseLoop (c :: rest) st = parseLoop rest (st.push (atomOf c)) := by
  by_cases hdot : c = '.'
  · subst hdot
    rw [parseLoop.eq_def]
    simp [atomOf]
  · simp only [patChar, litOK, Bool.or_eq_true, Bool.not_eq_true', Bool.or_eq_false_iff,
      beq_eq_false_iff_ne, beq_iff_eq, ne_eq, hdot, or_false] at h
    obtain ⟨⟨⟨⟨⟨⟨⟨⟨⟨⟨⟨⟨⟨h1, h2⟩, h3⟩, h4⟩, h5⟩, h6⟩, h7⟩, h8⟩, h9⟩, h10⟩, h11⟩, h12⟩, h13⟩, h14⟩ := h
    rw [parseLoop.eq_def]
    simp only [h1, h3, h4, h5, h6, h7, h8, h9, h10, h11, h12, h13, h14, hdot, if_false, or_self,
      atomOf]

theorem parseLoop_run (cs rest : Str) (stack : List Frame) (alts cur : List Regex) (idx ng : Nat)
    (b : Bool) (h : ∀ c ∈ cs, patChar c = true) (hb : cs = [] → b = false) :
    parseLoop (cs ++ rest) ⟨stack, ⟨alts, cur, idx⟩, ng, b⟩ =
      parseLoop rest ⟨stack, ⟨alts, (cs.map atomOf).reverse ++ cur, idx⟩, ng, false⟩ := by
  induction cs generalizing cur b with
  | nil => simp [hb rfl]
  | cons c cs ih =>
    rw [List.cons_append, parseLoop_patChar c _ _ (h c (List.mem_cons_self _ _))]
    simp only [PState.push]
    rw [ih (atomOf c :: cur) false (fun d hd => h d (List.mem_cons_of_mem _ hd)) (fun _ => rfl)]
    simp

theorem parseLoop_slot (rest : Str) (stack : List Frame) (alts cur : List Regex) (idx ng : Nat)
    (b : Bool) :
    parseLoop ('(' :: '\\' :: 'd' :: '+' :: ')' :: rest) ⟨stack, ⟨alts, cur, idx⟩, ng, b⟩ =
      parseLoop rest
        ⟨stack, ⟨alts, Regex.group ng (mkCat [Regex.plus Regex.digit]) :: cur, idx⟩, ng + 1, false⟩ := by
  rw [parseLoop.eq_def]
  simp only [Char.reduceEq, if_false, if_true, PState.push]
  rw [parseLoop.eq_def]
  simp only [Char.reduceEq, if_false, if_true, PState.push]
  rw [parseLoop.eq_def]
  simp only [Char.reduceEq, if_false, if_true, PState.push, PState.repeatLast, Regex.nullable]
  rw [parseLoop.eq_def]
  simp only [Char.reduceEq, if_false, if_true, PState.push, PState.repeatLast, Regex.nullable,
    Frame.close, mkAlt, List.reverse_cons, List.reverse_nil, List.nil_append]
  split
  · rename_i heq
    simp at heq
  · simp

theorem MustCompile_userID (a b : Str) (ha : ∀ c ∈ a, patChar c = true)
    (hb : ∀ c ∈ b, patChar c = true) :
    MustCompile ('^' :: (a ++ ("(\\d+)".toList ++ (b ++ ['$'])))) = .ret ⟨userIDExpr a b, 1⟩ := by
  have hs : "(\\d+)".toList = ['(', '\\', 'd', '+', ')'] := rfl
  rw [hs]
  unfold MustCompile
  rw [parseLoop.eq_def]
  simp only [Char.reduceEq, if_false, if_true, PState.push]
  rw [parseLoop_run a _ _ _ _ _ _ _ ha (fun _ => rfl)]
  simp only [List.cons_append, List.nil_append]
  rw [parseLoop_slot, parseLoop_run b _ _ _ _ _ _ _ hb (fun _ => rfl)]
  rw [parseLoop.eq_def]
  simp only [Char.reduceEq, if_false, if_true, PState.push]
  rw [parseLoop.eq_def]
  simp [Frame.close, mkAlt, userIDExpr]

/-! ## Lemmas on the matcher -/

theorem mkCat_cons (r : Regex) (rs : List Regex) : mkCat (r :: rs) = Regex.cat r (mkCat rs) := rfl

theorem matchK_atomOf_self {ρ : Type} (c : Char) (n : Nat) (s : Str) (caps : Caps)
    (k : Str → Caps → Option ρ) : (atomOf c).matchK n (c :: s) caps k = k s caps := by
  by_cases hdot : c = '.'
  · subst hdot
    simp [atomOf, Regex.matchK]
  · simp [atomOf, hdot, Regex.matchK]

theorem matchK_run_self {ρ : Type} (cs : Str) (rs : List Regex) (n : Nat) (s : Str) (caps : Caps)
    (k : Str → Caps → Option ρ) :
    (mkCat (cs.map atomOf ++ rs)).matchK n (cs ++ s) caps k = (mkCat rs).matchK n s caps k := by
  induction cs with
  | nil => rfl
  | cons c cs ih =>
    simp only [List.map_cons, List.cons_append, mkCat_cons, Regex.matchK]
    rw [matchK_atomOf_self]
    exact ih

/-- A run of single-character items closed by `$` only matches texts of its own length. -/
theorem matchK_run_rigid {ρ : Type} (cs : Str) (n : Nat) (s : Str) (caps : Caps)
    (k : Str → Caps → Option ρ) (h : s.length ≠ cs.length) :
    (mkCat (cs.map atomOf ++ [Regex.eol])).matchK n s caps k = none := by
  induction cs generalizing s with
  | nil =>
    cases s with
    | nil => exact absurd rfl h
    | cons x xs => simp [mkCat, Regex.matchK]
  | cons c cs ih =>
    simp only [List.map_cons, List.cons_append, mkCat_cons, Regex.matchK]
    cases s with
    | nil =>
      by_cases hdot : c = '.' <;> simp [atomOf, hdot, Regex.matchK]
    | cons x xs =>
      have hx : xs.length ≠ cs.length := by
        intro he
        apply h
        simp [he]
      by_cases hdot : c = '.'
      · simp only [atomOf, hdot, if_true, Regex.matchK]
        split
        · rfl
        · exact ih xs hx
      · simp only [atomOf, hdot, if_false, Regex.matchK]
        split
        · exact ih xs hx
        · rfl

theorem starLoop_digit_short {ρ : Type} (n L : Nat) (k : Str → Caps → Option ρ)
    (hk : ∀ s c, s.length ≠ L → k s c = none) (fuel : Nat) (s : Str) (c : Caps)
    (hs : s.length < L) : starLoop (digitStep n) k fuel s c = none := by
  induction fuel generalizing s with
  | zero => exact hk s c (by omega)
  | succ fuel ih =>
    have hks : k s c = none := hk s c (by omega)
    cases s with
    | nil => simp [starLoop, digitStep, Regex.matchK, hks]
    | cons x xs =>
      have hxs : starLoop (digitStep n) k fuel xs c = none := ih xs (by simp at hs; omega)
      by_cases hx : isDigit x = true
      · simp [starLoop, digitStep, Regex.matchK, hx, hxs, hks]
      · simp [starLoop, digitStep, Regex.matchK, hx, hks]

/-- Greedy `\d*` in front of a continuation that only accepts what follows the digit run
stops exactly at the end of the run. -/
theorem starLoop_digit_run {ρ : Type} (n : Nat) (k : Str → Caps → Option ρ) (rest : Str)
    (hk : ∀ s c, s.length ≠ rest.length → k s c = none) (ds : Str)
    (hds : ∀ d ∈ ds, isDigit d = true) (fuel : Nat) (hfuel : ds.length ≤ fuel) (c : Caps) :
    starLoop (digitStep n) k fuel (ds ++ rest) c = k rest c := by
  induction ds generalizing fuel with
  | nil =>
    cases fuel with
    | zero => rfl
    | succ fuel =>
      cases rest with
      | nil => simp [starLoop, digitStep, Regex.matchK]
      | cons x xs =>
        have hxs : starLoop (digitStep n) k fuel xs c = none :=
          starLoop_digit_short n _ k hk fuel xs c (by simp)
        by_cases hx : isDigit x = true
        · simp [starLoop, digitStep, Regex.matchK, hx, hxs]
        · simp [starLoop, digitStep, Regex.matchK, hx]
  | cons d ds ih =>
    cases fuel with
    | zero => simp at hfuel
    | succ fuel =>
      have hd : isDigit d = true := hds d (List.mem_cons_self _ _)
      have hrec := ih (fun e he => hds e (List.mem_cons_of_mem _ he)) fuel (by simp at hfuel; omega)
      have hlong : k (d :: (ds ++ rest)) c = none := hk _ c (by simp; omega)
      simp only [List.cons_append, starLoop, digitStep, Regex.matchK, hd, if_true,
        List.length_cons, Nat.lt_succ_self]
      rw [show starLoop (digitStep n) k fuel (ds ++ rest) c = k rest c from hrec]
      cases hkr : k rest c with
      | none => simp [hlong]
      | some r => rfl

theorem matchK_plus_digit {ρ : Type} (n : Nat) (k : Str → Caps → Option ρ) (rest : Str)
    (hk : ∀ s c, s.length ≠ rest.length → k s c = none) (ds : Str) (hne : ds ≠ [])
    (hds : ∀ d ∈ ds, isDigit d = true) (c : Caps) :
    (Regex.plus Regex.digit).matchK n (ds ++ rest) c k = k rest c := by
  cases ds with
  | nil => exact absurd rfl hne
  | cons d ds =>
    have hd : isDigit d = true := hds d (List.mem_cons_self _ _)
    simp only [List.cons_append, Regex.matchK, hd, if_true]
    exact starLoop_digit_run n k rest hk ds (fun e he => hds e (List.mem_cons_of_mem _ he))
      _ (by simp) c

theorem matchK_cat {ρ : Type} (x y : Regex) (n : Nat) (s : Str) (c : Caps)
    (k : Str → Caps → Option ρ) :
    (Regex.cat x y).matchK n s c k = x.matchK n s c (fun s2 c2 => y.matchK n s2 c2 k) := rfl

theorem matchK_bol {ρ : Type} (n : Nat) (s : Str) (c : Caps) (k : Str → Caps → Option ρ)
    (h : s.length = n) : Regex.bol.matchK n s c k = k s c := by
  simp [Regex.matchK, h]

theorem matchK_group {ρ : Type} (i : Nat) (x : Regex) (n : Nat) (s : Str) (c : Caps)
    (k : Str → Caps → Option ρ) :
    (Regex.group i x).matchK n s c k =
      x.matchK n s c (fun s2 c2 => k s2 (c2.set i (some (s.take (s.length - s2.length))))) := rfl

theorem matchK_empty {ρ : Type} (n : Nat) (s : Str) (c : Caps) (k : Str → Caps → Option ρ) :
    Regex.empty.matchK n s c k = k s c := rfl

theorem matchK_eol_nil {ρ : Type} (n : Nat) (c : Caps) (k : Str → Caps → Option ρ) :
    Regex.eol.matchK n [] c k = k [] c := rfl

/-- The user-ID expression, run on its own template filled with a digit run, matches the
whole text and captures the digit run. -/
theorem matchAt_userID (a b ds : Str) (hne : ds ≠ []) (hds : ∀ d ∈ ds, isDigit d = true) :
    matchAt ⟨userIDExpr a b, 1⟩ (a ++ (ds ++ b)).length (a ++ (ds ++ b)) =
      some [a ++ (ds ++ b), ds] := by
  unfold matchAt userIDExpr
  rw [mkCat_cons, matchK_cat, matchK_bol _ _ _ _ rfl, matchK_run_self, mkCat_cons, matchK_cat,
    matchK_group, mkCat_cons, matchK_cat]
  rw [matchK_plus_digit _ _ b _ ds hne hds]
  · have hb : ∀ (c : Caps) (k : Str → Caps → Option (List Str)),
        (mkCat (b.map atomOf ++ [Regex.eol])).matchK (a ++ (ds ++ b)).length b c k = k [] c := by
      intro c k
      have h := matchK_run_self b [Regex.eol] (a ++ (ds ++ b)).length [] c k
      rw [List.append_nil] at h
      rw [h, mkCat_cons, matchK_cat, matchK_eol_nil]
      rfl
    show (mkCat (b.map atomOf ++ [Regex.eol])).matchK _ b _ _ = _
    rw [hb]
    simp
  · intro s c hs
    exact matchK_run_rigid b _ s _ _ hs

theorem FindStringSubmatch_userID (a b ds : Str) (hne : ds ≠ [])
    (hds : ∀ d ∈ ds, isDigit d = true) :
    FindStringSubmatch ⟨userIDExpr a b, 1⟩ (a ++ (ds ++ b)) = [a ++ (ds ++ b), ds] := by
  unfold FindStringSubmatch
  have h := matchAt_userID a b ds hne hds
  cases hs : a ++ (ds ++ b) with
  | nil =>
    rw [hs] at h
    simp only [List.length_nil] at h
    simp [searchFrom, h]
  | cons y ys =>
    rw [hs] at h
    simp only [List.length_cons] at h
    simp [searchFrom, h]

/-- The value part of `ParsePuppetMXID` once the expression is known. -/
theorem ParsePuppetMXID_of_compiled (cfg : Config) (userIDRegex : Option Compiled) (re : Compiled)
    (mxid g whole : Str) (v : Int)
    (hcache : ∀ r, userIDRegex = some r → r = re)
    (hcomp : MustCompile (userIDPattern cfg) = .ret re)
    (hfind : FindStringSubmatch re mxid = [whole, g]) (hint : ParseInt g = some v) :
    ParsePuppetMXID cfg userIDRegex mxid = .ret ((v, true), some re) := by
  cases userIDRegex with
  | none => simp [ParsePuppetMXID, hcomp, hfind, hint]
  | some r =>
    have := hcache r rfl
    subst this
    simp [ParsePuppetMXID, hfind, hint]

/-- C1 (amended): for every remote ID `0 < x < 2^63`, every username template that puts
literal text around one ID slot, and every homeserver domain, where template text and domain
consist of characters the pattern reads as themselves (no regular-expression operator other
than the dot), `ParsePuppetMXID (FormatPuppetMXID x)` returns `(x, true)`; the expression
cache is either unset or holds the expression compiled from this configuration. -/
theorem parse_format_roundtrip (cfg : Config) (pre post : Str) (userIDRegex : Option Compiled)
    (x : Int) (htpl : ∀ s, cfg.FormatUsername s = pre ++ s ++ post)
    (hchars : ∀ c ∈ pre ++ post ++ cfg.Domain, patChar c = true)
    (hcache : ∀ re, userIDRegex = some re → MustCompile (userIDPattern cfg) = .ret re)
    (hpos : 0 < x) (hmax : x < 2 ^ 63) :
    ∃ re, ParsePuppetMXID cfg userIDRegex (FormatPuppetMXID cfg x) = .ret ((x, true), some re) := by
  have ha : ∀ c ∈ '@' :: pre, patChar c = true := by
    intro c hc
    rcases List.mem_cons.mp hc with h | h
    · subst h; decide
    · exact hchars c (by simp [h])
  have hb : ∀ c ∈ post ++ ':' :: cfg.Domain, patChar c = true := by
    intro c hc
    rcases List.mem_append.mp hc with h | h
    · exact hchars c (by simp [h])
    · rcases List.mem_cons.mp h with h | h
      · subst h; decide
      · exact hchars c (by simp [h])
  have hpat : userIDPattern cfg =
      '^' :: (('@' :: pre) ++ ("(\\d+)".toList ++ ((post ++ ':' :: cfg.Domain) ++ ['$']))) := by
    have h1 : "^@".toList = ['^', '@'] := rfl
    have h2 : ":".toList = [':'] := rfl
    have h3 : "$".toList = ['$'] := rfl
    simp [userIDPattern, htpl, h1, h2, h3]
  have hcomp : MustCompile (userIDPattern cfg) =
      .ret ⟨userIDExpr ('@' :: pre) (post ++ ':' :: cfg.Domain), 1⟩ := by
    rw [hpat]
    exact MustCompile_userID _ _ ha hb
  have hfmt : FormatPuppetMXID cfg x =
      ('@' :: pre) ++ (FormatInt x ++ (post ++ ':' :: cfg.Domain)) := by
    simp [FormatPuppetMXID, NewUserID, htpl]
  have hnot : ¬ x < 0 := by omega
  obtain ⟨hne, hdig, _⟩ := FormatUint_spec x.natAbs
  have hF : FormatInt x = FormatUint x.natAbs := by simp [FormatInt, hnot]
  refine ⟨⟨userIDExpr ('@' :: pre) (post ++ ':' :: cfg.Domain), 1⟩, ?_⟩
  apply ParsePuppetMXID_of_compiled cfg userIDRegex _ _ (FormatInt x) (FormatPuppetMXID cfg x) x
  · intro r hr
    have := hcache r hr
    rw [hcomp] at this
    exact (Outcome.ret.inj this).symm
  · exact hcomp
  · rw [hfmt]
    exact FindStringSubmatch_userID _ _ _ (hF ▸ hne) (hF ▸ hdig)
  · exact ParseInt_FormatInt x hpos hmax

/-- Witness for `parse_format_roundtrip`: remote ID 42 under the example configuration. -/
theorem parse_format_roundtrip_witness :
    (∀ s, exampleConfig.FormatUsername s = "meta_".toList ++ s ++ []) ∧
    (∀ c ∈ "meta_".toList ++ [] ++ exampleConfig.Domain, patChar c = true) ∧
    (0 : Int) < 42 ∧ (42 : Int) < 2 ^ 63 ∧
    ∃ re, ParsePuppetMXID exampleConfig none (FormatPuppetMXID exampleConfig 42) =
      .ret ((42, true), some re) :=
  ⟨fun s => by simp [exampleConfig], by decide, by decide, by decide,
    parse_format_roundtrip exampleConfig "meta_".toList [] none 42
      (fun s => by simp [exampleConfig]) (by decide) (fun re h => by simp at h) (by decide)
      (by decide)⟩

/-- C1 (counterexample): a negative remote ID does not survive the round trip, because its
text starts with a sign that the digit pattern does not accept. -/
theorem roundtrip_fails_for_negative_id :
    (-1 : Int) ≠ 0 ∧ -(2 : Int) ^ 63 ≤ -1 ∧
    ∃ re, ParsePuppetMXID exampleConfig none (FormatPuppetMXID exampleConfig (-1)) =
      .ret ((0, false), some re) :=
  ⟨by decide, by decide, _, rfl⟩

/-- C2 (failing input): with domain `example.org` the text `@meta_5:exampleXorg`, which is
not `@` + the username template with whatever text in the ID slot + `:` + the configured
domain, is accepted as remote ID 5: the dot of the domain is read as a pattern operator. -/
theorem parse_accepts_foreign_domain :
    (∀ ds : Str, "@meta_5:exampleXorg".toList ≠
      '@' :: (exampleConfig.FormatUsername ds ++ ':' :: exampleConfig.Domain)) ∧
    ∃ re, ParsePuppetMXID exampleConfig none "@meta_5:exampleXorg".toList =
      .ret ((5, true), some re) := by
  refine ⟨?_, _, rfl⟩
  intro ds h
  have h1 : "@meta_5:exampleXorg".toList =
      ['@', 'm', 'e', 't', 'a', '_', '5', ':', 'e', 'x', 'a', 'm', 'p', 'l', 'e', 'X', 'o', 'r', 'g'] := rfl
  have h2 : exampleConfig.Domain = ['e', 'x', 'a', 'm', 'p', 'l', 'e', '.', 'o', 'r', 'g'] := rfl
  rw [h1, h2] at h
  have h3 := congrArg List.reverse h
  simp at h3

/-- C3 (failing input): `FormatPuppetMXID` applied to remote ID 0 does not fail. It returns
the local identity `@meta_0:example.org`, which `ParsePuppetMXID` reads back as `(0, true)`,
whereas the lookup `GetPuppetByID` panics on the same remote ID whatever the store answers. -/
theorem format_zero_not_rejected :
    FormatPuppetMXID exampleConfig 0 = "@meta_0:example.org".toList ∧
    (∃ re, ParsePuppetMXID exampleConfig none (FormatPuppetMXID exampleConfig 0) =
      .ret ((0, true), some re)) ∧
    ∀ f : Faults, GetPuppetByID (startBridge exampleConfig []) f 0 =
      .panicked "User ID not provided" :=
  ⟨by decide, ⟨_, rfl⟩, fun _ => rfl⟩

/-! ### Converse direction: what the user-ID expression accepts -/

theorem matchK_run_inv {ρ : Type} (cs : Str) (hcs : ∀ c ∈ cs, c ≠ '.') (rs : List Regex) (n : Nat)
    (s : Str) (caps : Caps) (k : Str → Caps → Option ρ) (r : ρ)
    (h : (mkCat (cs.map atomOf ++ rs)).matchK n s caps k = some r) :
    ∃ s2, s = cs ++ s2 ∧ (mkCat rs).matchK n s2 caps k = some r := by
  induction cs generalizing s with
  | nil => exact ⟨s, rfl, h⟩
  | cons c cs ih =>
    have hc : c ≠ '.' := hcs c (List.mem_cons_self _ _)
    simp only [List.map_cons, List.cons_append, mkCat_cons, matchK_cat, atomOf, hc, if_false] at h
    cases s with
    | nil => simp [Regex.matchK] at h
    | cons x xs =>
      by_cases hx : x = c
      · subst hx
        simp only [Regex.matchK, if_true] at h
        obtain ⟨s2, hs2, hm⟩ := ih (fun d hd => hcs d (List.mem_cons_of_mem _ hd)) xs h
        exact ⟨s2, by rw [hs2]; rfl, hm⟩
      · simp [Regex.matchK, hx] at h

theorem starLoop_digit_cons {ρ : Type} (n : Nat) (k : Str → Caps → Option ρ) (fuel : Nat)
    (x : Char) (xs : Str) (c : Caps) :
    starLoop (digitStep n) k (fuel + 1) (x :: xs) c =
      if isDigit x = true then
        (match starLoop (digitStep n) k fuel xs c with
         | some r => some r
         | none => k (x :: xs) c)
      else k (x :: xs) c := by
  by_cases hx : isDigit x = true
  · simp [starLoop, digitStep, Regex.matchK, hx]
  · simp [starLoop, digitStep, Regex.matchK, hx]

theorem starLoop_digit_inv {ρ : Type} (n : Nat) (k : Str → Caps → Option ρ) (fuel : Nat) (s : Str)
    (c : Caps) (r : ρ) (h : starLoop (digitStep n) k fuel s c = some r) :
    ∃ ds rest, s = ds ++ rest ∧ (∀ d ∈ ds, isDigit d = true) ∧ k rest c = some r := by
  induction fuel generalizing s with
  | zero => exact ⟨[], s, rfl, by simp, h⟩
  | succ fuel ih =>
    cases s with
    | nil =>
      simp only [starLoop, digitStep, Regex.matchK] at h
      exact ⟨[], [], rfl, by simp, h⟩
    | cons x xs =>
      rw [starLoop_digit_cons] at h
      by_cases hx : isDigit x = true
      · rw [if_pos hx] at h
        cases hin : starLoop (digitStep n) k fuel xs c with
        | some r2 =>
          rw [hin] at h
          have hr := Option.some.inj h
          subst hr
          obtain ⟨ds, rest, hs, hd, hk⟩ := ih xs hin
          refine ⟨x :: ds, rest, by rw [hs]; rfl, ?_, hk⟩
          intro d hdm
          rcases List.mem_cons.mp hdm with hd1 | hd1
          · rw [hd1]; exact hx
          · exact hd d hd1
        | none =>
          rw [hin] at h
          exact ⟨[], x :: xs, rfl, by simp, h⟩
      · rw [if_neg hx] at h
        exact ⟨[], x :: xs, rfl, by simp, h⟩

theorem matchK_plus_digit_inv {ρ : Type} (n : Nat) (k : Str → Caps → Option ρ) (s : Str)
    (c : Caps) (r : ρ) (h : (Regex.plus Regex.digit).matchK n s c k = some r) :
    ∃ ds rest, ds ≠ [] ∧ s = ds ++ rest ∧ (∀ d ∈ ds, isDigit d = true) ∧ k rest c = some r := by
  cases s with
  | nil => simp [Regex.matchK] at h
  | cons x xs =>
    by_cases hx : isDigit x = true
    · simp only [Regex.matchK, hx, if_true] at h
      obtain ⟨ds, rest, hs, hd, hk⟩ := starLoop_digit_inv n k _ xs c r h
      refine ⟨x :: ds, rest, by simp, by rw [hs]; rfl, ?_, hk⟩
      intro d hdm
      rcases List.mem_cons.mp hdm with hd1 | hd1
      · rw [hd1]; exact hx
      · exact hd d hd1
    · simp [Regex.matchK, hx] at h

/-- Whatever the user-ID expression of a literal template matches is the template filled
with a non-empty digit run, and the capture is that run. -/
theorem matchAt_userID_inv (a b : Str) (ha : ∀ c ∈ a, c ≠ '.') (hb : ∀ c ∈ b, c ≠ '.') (n : Nat)
    (s : Str) (m : List Str) (h : matchAt ⟨userIDExpr a b, 1⟩ n s = some m) :
    s.length = n ∧ ∃ ds, ds ≠ [] ∧ (∀ d ∈ ds, isDigit d = true) ∧ s = a ++ (ds ++ b) ∧
      m = [s, ds] := by
  unfold matchAt userIDExpr at h
  rw [mkCat_cons, matchK_cat] at h
  by_cases hlen : s.length = n
  · rw [matchK_bol _ _ _ _ hlen] at h
    obtain ⟨s2, hs2, h2⟩ := matchK_run_inv a ha _ n s _ _ m h
    rw [mkCat_cons, matchK_cat, matchK_group, mkCat_cons, matchK_cat] at h2
    obtain ⟨ds, rest, hne, hs3, hdig, h3⟩ := matchK_plus_digit_inv n _ s2 _ m h2
    have h4 : (mkCat (b.map atomOf ++ [Regex.eol])).matchK n rest
        ((List.replicate 1 none).set 0 (some (s2.take (s2.length - rest.length))))
        (fun s5 c5 => some (s.take (s.length - s5.length) :: c5.map (fun o => o.getD []))) =
        some m := h3
    obtain ⟨s4, hs4, h5⟩ := matchK_run_inv b hb _ n rest _ _ m h4
    rw [mkCat_cons, matchK_cat] at h5
    cases s4 with
    | cons y ys => simp [Regex.matchK] at h5
    | nil =>
      rw [matchK_eol_nil] at h5
      have hrest : rest = b := by rw [hs4]; simp
      subst hrest
      refine ⟨hlen, ds, hne, hdig, by rw [hs2, hs3], ?_⟩
      have hm : m = [s, List.take (s2.length - rest.length) s2] := by
        have := Option.some.inj h5
        rw [← this]
        simp [mkCat, Regex.matchK]
      rw [hm, hs3]
      simp
  · simp [Regex.matchK, hlen] at h

theorem searchFrom_short (a b : Str) (n : Nat) (t : Str) (ht : t.length < n) :
    searchFrom ⟨userIDExpr a b, 1⟩ n t = none := by
  have hnone : ∀ u : Str, u.length < n → matchAt ⟨userIDExpr a b, 1⟩ n u = none := by
    intro u hu
    unfold matchAt userIDExpr
    rw [mkCat_cons, matchK_cat]
    have : ¬ u.length = n := by omega
    simp [Regex.matchK, this]
  induction t with
  | nil => simpa [searchFrom] using hnone [] ht
  | cons x xs ih =>
    simp only [searchFrom, hnone (x :: xs) ht]
    exact ih (by simp at ht; omega)

theorem FindStringSubmatch_userID_inv (a b : Str) (ha : ∀ c ∈ a, c ≠ '.') (hb : ∀ c ∈ b, c ≠ '.')
    (s whole g : Str) (h : FindStringSubmatch ⟨userIDExpr a b, 1⟩ s = [whole, g]) :
    g ≠ [] ∧ (∀ d ∈ g, isDigit d = true) ∧ s = a ++ (g ++ b) := by
  unfold FindStringSubmatch at h
  have hm : matchAt ⟨userIDExpr a b, 1⟩ s.length s = some [whole, g] := by
    cases s with
    | nil =>
      simp only [searchFrom, List.length_nil] at h
      cases hma : matchAt ⟨userIDExpr a b, 1⟩ 0 [] with
      | none => simp [hma] at h
      | some m =>
        simp only [hma, Option.getD_some] at h
        rw [← h]
        exact hma
    | cons x xs =>
      simp only [searchFrom] at h
      cases hma : matchAt ⟨userIDExpr a b, 1⟩ (x :: xs).length (x :: xs) with
      | none =>
        rw [List.length_cons] at hma h
        rw [hma, searchFrom_short a b (xs.length + 1) xs (by simp)] at h
        simp at h
      | some m =>
        rw [List.length_cons] at hma h
        rw [hma] at h
        simp only [Option.getD_some] at h
        rw [h]
  obtain ⟨_, ds, hne, hdig, hs, hmm⟩ := matchAt_userID_inv a b ha hb _ s _ hm
  have hg : g = ds := by
    have := List.cons.inj hmm
    exact (List.cons.inj this.2).1
  subst hg
  exact ⟨hne, hdig, hs⟩

/-- With a username template that puts literal text around one ID slot and a domain, both
free of pattern operators and of the dot, `ParsePuppetMXID` returns `(0, false)` for every
text that is not `@` + the template filled with a digit run that fits `int64` + `:` + the
domain. -/
theorem ParsePuppetMXID_rejects_outside_shape (cfg : Config) (pre post : Str)
    (userIDRegex : Option Compiled) (s : Str)
    (htpl : ∀ t, cfg.FormatUsername t = pre ++ t ++ post)
    (hchars : ∀ c ∈ pre ++ post ++ cfg.Domain, litOK c = true)
    (hcache : ∀ re, userIDRegex = some re → MustCompile (userIDPattern cfg) = .ret re)
    (hout : ∀ ds, ds ≠ [] → (∀ d ∈ ds, isDigit d = true) →
      s = '@' :: (cfg.FormatUsername ds ++ ':' :: cfg.Domain) → ParseInt ds = none) :
    ∃ re, ParsePuppetMXID cfg userIDRegex s = .ret ((0, false), some re) := by
  have hlit : ∀ c, litOK c = true → patChar c = true ∧ c ≠ '.' := by
    intro c hc
    refine ⟨by simp [patChar, hc], ?_⟩
    intro hd
    subst hd
    exact absurd hc (by decide)
  have ha : ∀ c ∈ '@' :: pre, litOK c = true := by
    intro c hc
    rcases List.mem_cons.mp hc with h | h
    · subst h; decide
    · exact hchars c (by simp [h])
  have hb : ∀ c ∈ post ++ ':' :: cfg.Domain, litOK c = true := by
    intro c hc
    rcases List.mem_append.mp hc with h | h
    · exact hchars c (by simp [h])
    · rcases List.mem_cons.mp h with h | h
      · subst h; decide
      · exact hchars c (by simp [h])
  have hpat : userIDPattern cfg =
      '^' :: (('@' :: pre) ++ ("(\\d+)".toList ++ ((post ++ ':' :: cfg.Domain) ++ ['$']))) := by
    have h1 : "^@".toList = ['^', '@'] := rfl
    have h2 : ":".toList = [':'] := rfl
    have h3 : "$".toList = ['$'] := rfl
    simp [userIDPattern, htpl, h1, h2, h3]
  have hcomp : MustCompile (userIDPattern cfg) =
      .ret ⟨userIDExpr ('@' :: pre) (post ++ ':' :: cfg.Domain), 1⟩ := by
    rw [hpat]
    exact MustCompile_userID _ _ (fun c hc => (hlit c (ha c hc)).1) (fun c hc => (hlit c (hb c hc)).1)
  have hre : ∀ r, userIDRegex = some r →
      r = ⟨userIDExpr ('@' :: pre) (post ++ ':' :: cfg.Domain), 1⟩ := by
    intro r hr
    have := hcache r hr
    rw [hcomp] at this
    exact (Outcome.ret.inj this).symm
  refine ⟨⟨userIDExpr ('@' :: pre) (post ++ ':' :: cfg.Domain), 1⟩, ?_⟩
  have hgoal : ∀ m, FindStringSubmatch ⟨userIDExpr ('@' :: pre) (post ++ ':' :: cfg.Domain), 1⟩ s = m →
      (match m with
        | [_, g] =>
          match ParseInt g with
          | none => Outcome.ret (((0 : Int), false),
              some (⟨userIDExpr ('@' :: pre) (post ++ ':' :: cfg.Domain), 1⟩ : Compiled))
          | some parsed => Outcome.ret ((parsed, true), some ⟨userIDExpr ('@' :: pre) (post ++ ':' :: cfg.Domain), 1⟩)
        | _ => Outcome.ret ((0, false), some ⟨userIDExpr ('@' :: pre) (post ++ ':' :: cfg.Domain), 1⟩)) =
      Outcome.ret ((0, false), some ⟨userIDExpr ('@' :: pre) (post ++ ':' :: cfg.Domain), 1⟩) := by
    intro m hm
    split
    · rename_i w g
      obtain ⟨hne, hdig, hs⟩ := FindStringSubmatch_userID_inv _ _
        (fun c hc => (hlit c (ha c hc)).2) (fun c hc => (hlit c (hb c hc)).2) s w g hm
      have hnone : ParseInt g = none := by
        apply hout g hne hdig
        rw [hs, htpl]
        simp
      simp [hnone]
    · rfl
  cases userIDRegex with
  | none =>
    simp only [ParsePuppetMXID, hcomp]
    exact hgoal _ rfl
  | some r =>
    have := hre r rfl
    subst this
    simp only [ParsePuppetMXID]
    exact hgoal _ rfl

/-! ## Identity registry -/

theorem StoreGetByID_some (rows : List DbPuppet) (id : Int) (r : DbPuppet)
    (h : StoreGetByID rows id = some r) : r ∈ rows ∧ r.ID = id := by
  unfold StoreGetByID at h
  exact ⟨List.mem_of_find?_eq_some h, by simpa using List.find?_some h⟩

theorem StoreGetByID_none (rows : List DbPuppet) (id : Int) (h : StoreGetByID rows id = none) :
    ∀ r ∈ rows, r.ID ≠ id := by
  unfold StoreGetByID at h
  intro r hr
  have := List.find?_eq_none.mp h r hr
  simpa using this

theorem StoreGetByCustomMXID_some (rows : List DbPuppet) (mxid : Str) (r : DbPuppet)
    (h : StoreGetByCustomMXID rows mxid = some r) :
    r ∈ rows ∧ r.CustomMXID = mxid ∧ r.CustomMXID ≠ [] := by
  unfold StoreGetByCustomMXID at h
  have h2 := List.find?_some h
  simp only [Bool.and_eq_true, decide_eq_true_eq] at h2
  exact ⟨List.mem_of_find?_eq_some h, h2.1, h2.2⟩

theorem cachePuppet_fst (br : MetaBridge) (row : DbPuppet) :
    (cachePuppet br row).1 = some br.arena.length := by
  unfold cachePuppet
  simp only []
  split <;> rfl

theorem cachePuppet_puppets (br : MetaBridge) (row : DbPuppet) :
    (cachePuppet br row).2.puppets = setKey br.puppets row.ID br.arena.length := by
  unfold cachePuppet
  simp only []
  split <;> rfl

theorem cachePuppet_arena (br : MetaBridge) (row : DbPuppet) :
    (cachePuppet br row).2.arena = br.arena ++ [NewPuppet br row] := by
  unfold cachePuppet
  simp only []
  split <;> rfl

theorem cachePuppet_DB (br : MetaBridge) (row : DbPuppet) : (cachePuppet br row).2.DB = br.DB := by
  unfold cachePuppet
  simp only []
  split <;> rfl

theorem cachePuppet_trace (br : MetaBridge) (row : DbPuppet) :
    (cachePuppet br row).2.trace = br.trace := by
  unfold cachePuppet
  simp only []
  split <;> rfl

theorem cachePuppet_custom (br : MetaBridge) (row : DbPuppet) :
    (cachePuppet br row).2.puppetsByCustomMXID =
      if row.CustomMXID ≠ [] then setKey br.puppetsByCustomMXID row.CustomMXID br.arena.length
      else br.puppetsByCustomMXID := by
  unfold cachePuppet
  simp only [NewPuppet]
  split <;> rfl

/-- A cached remote ID is answered from the primary map, without touching anything. -/
theorem GetPuppetByID_hit (br : MetaBridge) (f : Faults) (id : Int) (p : Nat) (hid : id ≠ 0)
    (h : br.puppets id = some p) : GetPuppetByID br f id = .ret (some p, br) := by
  simp [GetPuppetByID, hid, h]

theorem GetPuppetByIDTimes_hit (br : MetaBridge) (fs : List Faults) (id : Int) (p : Nat)
    (hid : id ≠ 0) (h : br.puppets id = some p) :
    GetPuppetByIDTimes id fs br = (List.replicate fs.length (some p), br) := by
  induction fs with
  | nil => rfl
  | cons f fs ih =>
    simp only [GetPuppetByIDTimes, GetPuppetByID_hit br f id p hid h, ih, List.length_cons,
      List.replicate_succ]

/-- C4: load-or-create. For a non-zero `id` missing from the primary map, when the store
lookup and (if no record exists) the insert succeed, `N >= 1` successive calls
`GetPuppetByID(id)` all return the same puppet, whose ID is `id` and whose MXID is
`FormatPuppetMXID(id)`; the store receives one lookup, from the first call, followed by
exactly one insert if it had no record for `id` and by nothing if it had one. -/
theorem GetPuppetByID_load_or_create (br : MetaBridge) (f : Faults) (fs : List Faults) (id : Int)
    (hid : id ≠ 0) (hmiss : br.puppets id = none) (hq : f.query = false)
    (hins : StoreGetByID br.DB id = none → f.insert = false) :
    (GetPuppetByIDTimes id (f :: fs) br).1 = List.replicate (fs.length + 1) (some br.arena.length) ∧
    (∃ pu, (GetPuppetByIDTimes id (f :: fs) br).2.arena[br.arena.length]? = some pu ∧
      pu.db.ID = id ∧ pu.MXID = FormatPuppetMXID br.Config id) ∧
    (GetPuppetByIDTimes id (f :: fs) br).2.trace =
      br.trace ++ StoreCall.getByID id ::
        (if (StoreGetByID br.DB id).isSome then [] else [StoreCall.insert id]) := by
  cases hrow : StoreGetByID br.DB id with
  | some row =>
    have hrid : row.ID = id := (StoreGetByID_some _ _ _ hrow).2
    have hfirst : GetPuppetByID br f id =
        .ret (cachePuppet { br with trace := br.trace ++ [StoreCall.getByID id] } row) := by
      simp [GetPuppetByID, hid, hmiss, hq, loadPuppet, hrow]
    have hp : (cachePuppet { br with trace := br.trace ++ [StoreCall.getByID id] } row).2.puppets id
        = some br.arena.length := by
      rw [cachePuppet_puppets]
      simp [setKey, hrid]
    simp only [GetPuppetByIDTimes, hfirst, GetPuppetByIDTimes_hit _ fs id _ hid hp,
      cachePuppet_fst, cachePuppet_arena, cachePuppet_trace, List.replicate_succ]
    refine ⟨trivial, ⟨NewPuppet br row, by simp [NewPuppet], hrid, by simp [NewPuppet, hrid]⟩, by simp⟩
  | none =>
    have hi : f.insert = false := hins hrow
    have hfirst : GetPuppetByID br f id =
        .ret (cachePuppet
          { br with trace := br.trace ++ [StoreCall.getByID id] ++ [StoreCall.insert id],
                    DB := StoreInsert br.DB { DbPuppet.New with ID := id } }
          { DbPuppet.New with ID := id }) := by
      simp [GetPuppetByID, hid, hmiss, hq, loadPuppet, hrow, hi]
    have hp : (cachePuppet
          { br with trace := br.trace ++ [StoreCall.getByID id] ++ [StoreCall.insert id],
                    DB := StoreInsert br.DB { DbPuppet.New with ID := id } }
          { DbPuppet.New with ID := id }).2.puppets id = some br.arena.length := by
      rw [cachePuppet_puppets]
      simp [setKey]
    simp only [GetPuppetByIDTimes, hfirst, GetPuppetByIDTimes_hit _ fs id _ hid hp,
      cachePuppet_fst, cachePuppet_arena, cachePuppet_trace, List.replicate_succ]
    refine ⟨trivial, ⟨NewPuppet br { DbPuppet.New with ID := id }, by simp [NewPuppet], rfl,
      by simp [NewPuppet]⟩, by simp⟩

/-- Witness for `GetPuppetByID_load_or_create`: three calls for remote ID 7 on an empty
store, the later calls with a failing store. -/
theorem GetPuppetByID_load_or_create_witness :
    (7 : Int) ≠ 0 ∧ (startBridge exampleConfig []).puppets 7 = none ∧
    (GetPuppetByIDTimes 7 [⟨false, false⟩, ⟨true, true⟩, ⟨true, true⟩]
        (startBridge exampleConfig [])).1 = List.replicate 3 (some 0) ∧
    (GetPuppetByIDTimes 7 [⟨false, false⟩, ⟨true, true⟩, ⟨true, true⟩]
        (startBridge exampleConfig [])).2.trace =
      [] ++ StoreCall.getByID 7 ::
        (if (StoreGetByID ([] : List DbPuppet) 7).isSome then [] else [StoreCall.insert 7]) :=
  ⟨by decide, rfl,
    (GetPuppetByID_load_or_create (startBridge exampleConfig []) ⟨false, false⟩
      [⟨true, true⟩, ⟨true, true⟩] 7 (by decide) rfl rfl (fun _ => rfl)).1,
    (GetPuppetByID_load_or_create (startBridge exampleConfig []) ⟨false, false⟩
      [⟨true, true⟩, ⟨true, true⟩] 7 (by decide) rfl rfl (fun _ => rfl)).2.2⟩

/-- C6: `GetPuppetByCustomMXID` never creates a puppet. For a local identity that is in
neither the secondary map nor the store, the call returns no puppet, sends the store its
lookup and no insert, and leaves both maps, the arena of puppets and the store content
unchanged. -/
theorem GetPuppetByCustomMXID_never_creates (br : MetaBridge) (f : Faults) (mxid : Str)
    (hcache : br.puppetsByCustomMXID mxid = none) (hstore : ∀ r ∈ br.DB, r.CustomMXID ≠ mxid) :
    (GetPuppetByCustomMXID br f mxid).1 = none ∧
    (GetPuppetByCustomMXID br f mxid).2.puppets = br.puppets ∧
    (GetPuppetByCustomMXID br f mxid).2.puppetsByCustomMXID = br.puppetsByCustomMXID ∧
    (GetPuppetByCustomMXID br f mxid).2.arena = br.arena ∧
    (GetPuppetByCustomMXID br f mxid).2.DB = br.DB ∧
    (GetPuppetByCustomMXID br f mxid).2.trace = br.trace ++ [StoreCall.getByCustomMXID mxid] := by
  have hnone : StoreGetByCustomMXID br.DB mxid = none := by
    unfold StoreGetByCustomMXID
    rw [List.find?_eq_none]
    intro r hr
    simp [hstore r hr]
  cases hq : f.query <;> simp [GetPuppetByCustomMXID, hcache, hq, loadPuppet, hnone]

/-- Witness for `GetPuppetByCustomMXID_never_creates`: an unknown identity on a store that
holds one unbound record. -/
theorem GetPuppetByCustomMXID_never_creates_witness :
    (GetPuppetByCustomMXID (startBridge exampleConfig [{ DbPuppet.New with ID := 7 }])
      ⟨false, false⟩ "@alice:example.org".toList).1 = none ∧
    (GetPuppetByCustomMXID (startBridge exampleConfig [{ DbPuppet.New with ID := 7 }])
      ⟨false, false⟩ "@alice:example.org".toList).2.trace =
        [StoreCall.getByCustomMXID "@alice:example.org".toList] := by
  have h := GetPuppetByCustomMXID_never_creates
    (startBridge exampleConfig [{ DbPuppet.New with ID := 7 }]) ⟨false, false⟩
    "@alice:example.org".toList rfl (by decide)
  exact ⟨h.1, h.2.2.2.2.2⟩

/-! ### The registry invariant -/

theorem RegistryInv_start (cfg : Config) (rows : List DbPuppet)
    (h : (rows.map (fun r => r.ID)).Nodup) : RegistryInv (startBridge cfg rows) where
  nodup := h
  cacheOK := by intro id p hp; simp [startBridge] at hp
  arenaOK := by intro q pu hq; simp [startBridge] at hq
  customOK := by intro r _ _ hp; simp [startBridge] at hp

theorem RegistryInv_trace (br : MetaBridge) (t : List StoreCall) (h : RegistryInv br) :
    RegistryInv { br with trace := t } :=
  ⟨h.nodup, h.cacheOK, h.arenaOK, h.customOK⟩

/-- Entering a stored record whose remote ID is not cached keeps the invariant and every
existing primary-map entry. -/
theorem cachePuppet_inv (br : MetaBridge) (row : DbPuppet) (hinv : RegistryInv br)
    (hrow : row ∈ br.DB) (hmiss : br.puppets row.ID = none) :
    RegistryInv (cachePuppet br row).2 ∧
    (∀ id p, br.puppets id = some p → (cachePuppet br row).2.puppets id = some p) := by
  refine ⟨⟨?_, ?_, ?_, ?_⟩, ?_⟩
  · rw [cachePuppet_DB]
    exact hinv.nodup
  · intro id p hp
    rw [cachePuppet_puppets] at hp
    rw [cachePuppet_arena]
    by_cases hid : id = row.ID
    · simp only [setKey, hid, if_true, Option.some.injEq] at hp
      subst hp
      exact ⟨NewPuppet br row, by simp, hid.symm⟩
    · simp only [setKey, hid, if_false] at hp
      obtain ⟨pu, hpu, hpid⟩ := hinv.cacheOK id p hp
      have hlt : p < br.arena.length := (List.getElem?_eq_some.mp hpu).1
      exact ⟨pu, by rw [List.getElem?_append_left hlt]; exact hpu, hpid⟩
  · intro q pu hq
    rw [cachePuppet_arena] at hq
    rw [cachePuppet_puppets]
    by_cases hlt : q < br.arena.length
    · rw [List.getElem?_append_left hlt] at hq
      have hold := hinv.arenaOK q pu hq
      have hne : pu.db.ID ≠ row.ID := by
        intro he
        rw [he, hmiss] at hold
        exact Option.noConfusion hold
      simp [setKey, hne, hold]
    · have hge : br.arena.length ≤ q := Nat.le_of_not_lt hlt
      rw [List.getElem?_append_right hge] at hq
      have hq0 : q - br.arena.length = 0 := by
        by_contra hne
        have : 1 ≤ q - br.arena.length := Nat.one_le_iff_ne_zero.mpr hne
        rw [List.getElem?_eq_none (by simpa using this)] at hq
        exact Option.noConfusion hq
      rw [hq0] at hq
      simp only [List.getElem?_cons_zero, Option.some.injEq] at hq
      subst hq
      have : q = br.arena.length := by omega
      simp [setKey, NewPuppet, this]
  · intro r hr hc hp
    rw [cachePuppet_DB] at hr
    rw [cachePuppet_puppets] at hp
    rw [cachePuppet_custom]
    by_cases hid : r.ID = row.ID
    · have hrr : r = row := List.inj_on_of_nodup_map hinv.nodup hr hrow hid
      subst hrr
      simp [setKey, hc]
    · simp only [setKey, hid, if_false] at hp
      have hold := hinv.customOK r hr hc hp
      by_cases hrc : row.CustomMXID ≠ []
      · simp only [hrc, ne_eq, not_false_eq_true, if_true, setKey]
        split
        · exact Option.noConfusion
        · exact hold
      · simp only [hrc, if_false]
        exact hold
  · intro id p hp
    rw [cachePuppet_puppets]
    have hne : id ≠ row.ID := by
      intro he
      rw [he, hmiss] at hp
      exact Option.noConfusion hp
    simp [setKey, hne, hp]

theorem GetPuppetByID_inv (br : MetaBridge) (f : Faults) (id : Int) (hinv : RegistryInv br) :
    RegistryInv ((RegistryOp.getPuppetByID id f).run br) ∧
    (∀ k p, br.puppets k = some p → ((RegistryOp.getPuppetByID id f).run br).puppets k = some p) := by
  unfold RegistryOp.run GetPuppetByID
  by_cases hid : id = 0
  · simp only [hid, if_true]
    exact ⟨hinv, fun _ _ h => h⟩
  · simp only [hid, if_false]
    cases hc : br.puppets id with
    | some p => exact ⟨hinv, fun _ _ h => h⟩
    | none =>
      simp only []
      cases hq : f.query with
      | true =>
        simp only [if_true]
        exact ⟨RegistryInv_trace br _ hinv, fun _ _ h => h⟩
      | false =>
        simp only [Bool.false_eq_true, if_false, loadPuppet]
        cases hrow : StoreGetByID br.DB id with
        | some row =>
          obtain ⟨hmem, hrid⟩ := StoreGetByID_some _ _ _ hrow
          simp only []
          exact cachePuppet_inv { br with trace := br.trace ++ [StoreCall.getByID id] } row
            (RegistryInv_trace br _ hinv) hmem (by rw [hrid]; exact hc)
        | none =>
          simp only []
          cases hi : f.insert with
          | true =>
            simp only [if_true]
            exact ⟨RegistryInv_trace br _ hinv, fun _ _ h => h⟩
          | false =>
            simp only [Bool.false_eq_true, if_false]
            have hfresh := StoreGetByID_none _ _ hrow
            have hinv2 : RegistryInv
                { br with trace := br.trace ++ [StoreCall.getByID id] ++ [StoreCall.insert id],
                          DB := StoreInsert br.DB { DbPuppet.New with ID := id } } := by
              refine ⟨?_, hinv.cacheOK, hinv.arenaOK, ?_⟩
              · simp only [StoreInsert, List.map_append, List.map_cons, List.map_nil]
                rw [List.nodup_append]
                refine ⟨hinv.nodup, by simp, ?_⟩
                intro a ha hb
                simp only [List.mem_singleton] at hb
                obtain ⟨r, hr, hra⟩ := List.mem_map.mp ha
                exact hfresh r hr (by rw [hra, hb])
              · intro r hr hcu hp
                simp only [StoreInsert, List.mem_append, List.mem_singleton] at hr
                rcases hr with hr | hr
                · exact hinv.customOK r hr hcu hp
                · subst hr
                  exact absurd rfl hcu
            exact cachePuppet_inv _ _ hinv2 (by simp [StoreInsert]) hc

theorem GetPuppetByCustomMXID_inv (br : MetaBridge) (f : Faults) (mxid : Str)
    (hinv : RegistryInv br) :
    RegistryInv ((RegistryOp.getPuppetByCustomMXID mxid f).run br) ∧
    (∀ k p, br.puppets k = some p →
      ((RegistryOp.getPuppetByCustomMXID mxid f).run br).puppets k = some p) := by
  have hrun : (RegistryOp.getPuppetByCustomMXID mxid f).run br =
      (GetPuppetByCustomMXID br f mxid).2 := rfl
  rw [hrun]
  unfold GetPuppetByCustomMXID
  cases hc : br.puppetsByCustomMXID mxid with
  | some p => exact ⟨hinv, fun _ _ h => h⟩
  | none =>
    simp only []
    cases hq : f.query with
    | true =>
      simp only [if_true]
      exact ⟨RegistryInv_trace br _ hinv, fun _ _ h => h⟩
    | false =>
      simp only [Bool.false_eq_true, if_false, loadPuppet]
      cases hrow : StoreGetByCustomMXID br.DB mxid with
      | none => exact ⟨RegistryInv_trace br _ hinv, fun _ _ h => h⟩
      | some row =>
        obtain ⟨hmem, hcm, hne⟩ := StoreGetByCustomMXID_some _ _ _ hrow
        simp only []
        have hmiss : br.puppets row.ID = none := by
          by_contra hp
          exact hinv.customOK row hmem hne hp (by rw [hcm]; exact hc)
        exact cachePuppet_inv { br with trace := br.trace ++ [StoreCall.getByCustomMXID mxid] } row
          (RegistryInv_trace br _ hinv) hmem hmiss

theorem dbPuppetsToPuppets_inv (f : Faults) (l : List (Option DbPuppet)) (br : MetaBridge)
    (hinv : RegistryInv br) (hl : ∀ r, some r ∈ l → r ∈ br.DB) :
    RegistryInv (dbPuppetsToPuppets f l br).2 ∧
    (∀ k p, br.puppets k = some p → (dbPuppetsToPuppets f l br).2.puppets k = some p) := by
  induction l generalizing br with
  | nil => exact ⟨hinv, fun _ _ h => h⟩
  | cons x rest ih =>
    cases x with
    | none =>
      simp only [dbPuppetsToPuppets]
      exact ih br hinv (fun r hr => hl r (List.mem_cons_of_mem _ hr))
    | some row =>
      simp only [dbPuppetsToPuppets]
      cases hc : br.puppets row.ID with
      | some p =>
        simp only []
        exact ih br hinv (fun r hr => hl r (List.mem_cons_of_mem _ hr))
      | none =>
        simp only [loadPuppet]
        have hmem : row ∈ br.DB := hl row (List.mem_cons_self _ _)
        obtain ⟨hinv1, hst1⟩ := cachePuppet_inv br row hinv hmem hc
        obtain ⟨hinv2, hst2⟩ := ih (cachePuppet br row).2 hinv1
          (fun r hr => by rw [cachePuppet_DB]; exact hl r (List.mem_cons_of_mem _ hr))
        exact ⟨hinv2, fun k p h => hst2 k p (hst1 k p h)⟩

theorem GetAllPuppetsWithCustomMXID_inv (br : MetaBridge) (f : Faults) (hinv : RegistryInv br) :
    RegistryInv ((RegistryOp.getAllPuppetsWithCustomMXID f).run br) ∧
    (∀ k p, br.puppets k = some p →
      ((RegistryOp.getAllPuppetsWithCustomMXID f).run br).puppets k = some p) := by
  have hrun : (RegistryOp.getAllPuppetsWithCustomMXID f).run br =
      (GetAllPuppetsWithCustomMXID br f).2 := rfl
  rw [hrun]
  unfold GetAllPuppetsWithCustomMXID
  cases hq : f.query with
  | true =>
    simp only [if_true]
    exact ⟨RegistryInv_trace br _ hinv, fun _ _ h => h⟩
  | false =>
    simp only [Bool.false_eq_true, if_false]
    apply dbPuppetsToPuppets_inv f _ _ (RegistryInv_trace br _ hinv)
    intro r hr
    simp only [StoreGetAllWithCustomMXID, List.mem_map, Option.some.injEq, exists_eq_right] at hr
    exact (List.mem_filter.mp hr).1

theorem RegistryOp_run_inv (op : RegistryOp) (br : MetaBridge) (hinv : RegistryInv br) :
    RegistryInv (op.run br) ∧ (∀ k p, br.puppets k = some p → (op.run br).puppets k = some p) := by
  cases op with
  | getPuppetByID id f => exact GetPuppetByID_inv br f id hinv
  | getPuppetByCustomMXID mxid f => exact GetPuppetByCustomMXID_inv br f mxid hinv
  | getAllPuppetsWithCustomMXID f => exact GetAllPuppetsWithCustomMXID_inv br f hinv

theorem runOps_inv (ops : List RegistryOp) (br : MetaBridge) (hinv : RegistryInv br) :
    RegistryInv (runOps ops br) ∧ (∀ k p, br.puppets k = some p → (runOps ops br).puppets k = some p) := by
  induction ops generalizing br with
  | nil => exact ⟨hinv, fun _ _ h => h⟩
  | cons op ops ih =>
    obtain ⟨h1, s1⟩ := RegistryOp_run_inv op br hinv
    obtain ⟨h2, s2⟩ := ih (op.run br) h1
    exact ⟨h2, fun k p h => s2 k p (s1 k p h)⟩

/-- C5: at most one puppet per remote ID. Starting from the bridge at start-up over a store
whose records have distinct remote IDs, once a sequence of registry operations has put a
remote ID into the primary map, every further sequence of registry operations leaves that
entry pointing at the same puppet, and every puppet ever constructed for that remote ID is
that puppet. -/
theorem one_puppet_per_remote_id (cfg : Config) (rows : List DbPuppet)
    (hkeys : (rows.map (fun r => r.ID)).Nodup) (ops1 ops2 : List RegistryOp) (id : Int) (p : Nat)
    (h : (runOps ops1 (startBridge cfg rows)).puppets id = some p) :
    (runOps ops2 (runOps ops1 (startBridge cfg rows))).puppets id = some p ∧
    ∀ q pu, (runOps ops2 (runOps ops1 (startBridge cfg rows))).arena[q]? = some pu →
      pu.db.ID = id → q = p := by
  obtain ⟨h1, _⟩ := runOps_inv ops1 _ (RegistryInv_start cfg rows hkeys)
  obtain ⟨h2, s2⟩ := runOps_inv ops2 _ h1
  refine ⟨s2 id p h, ?_⟩
  intro q pu hq hid
  have := h2.arenaOK q pu hq
  rw [hid, s2 id p h] at this
  exact (Option.some.inj this).symm

/-- Witness for `one_puppet_per_remote_id`: a bound record for remote ID 5 is loaded by ID,
then looked up by its custom identity, in bulk, and by ID again. -/
theorem one_puppet_per_remote_id_witness :
    (([{ DbPuppet.New with ID := 5, CustomMXID := "@alice:example.org".toList }] : List DbPuppet).map
      (fun r => r.ID)).Nodup ∧
    (runOps [RegistryOp.getPuppetByID 5 ⟨false, false⟩]
      (startBridge exampleConfig
        [{ DbPuppet.New with ID := 5, CustomMXID := "@alice:example.org".toList }])).puppets 5 =
      some 0 ∧
    (runOps [RegistryOp.getPuppetByCustomMXID "@alice:example.org".toList ⟨false, false⟩,
        RegistryOp.getAllPuppetsWithCustomMXID ⟨false, false⟩,
        RegistryOp.getPuppetByID 5 ⟨false, false⟩]
      (runOps [RegistryOp.getPuppetByID 5 ⟨false, false⟩]
        (startBridge exampleConfig
          [{ DbPuppet.New with ID := 5, CustomMXID := "@alice:example.org".toList }]))).puppets 5 =
      some 0 :=
  ⟨by decide, by decide,
    (one_puppet_per_remote_id exampleConfig
      [{ DbPuppet.New with ID := 5, CustomMXID := "@alice:example.org".toList }] (by decide)
      [RegistryOp.getPuppetByID 5 ⟨false, false⟩]
      [RegistryOp.getPuppetByCustomMXID "@alice:example.org".toList ⟨false, false⟩,
        RegistryOp.getAllPuppetsWithCustomMXID ⟨false, false⟩,
        RegistryOp.getPuppetByID 5 ⟨false, false⟩] 5 0 (by decide)).1⟩

/-! ## Acting-identity selector -/

/-- C9: acting-identity selection. For a non-nil puppet and any conversation context,
`IntentFor` gives the default puppet identity when no custom identity is bound, gives the
default identity when the context is a private chat whose thread ID is the puppet's remote
ID (bound or not), and gives the bound custom identity in every other case where one is
bound. -/
theorem IntentFor_selects (puppet : Puppet) (portal : Portal) :
    (puppet.customIntent = none → IntentFor (some puppet) portal = some puppet.DefaultIntent) ∧
    (portal.IsPrivateChat = true → portal.ThreadID = puppet.db.ID →
      IntentFor (some puppet) portal = some puppet.DefaultIntent) ∧
    (∀ c, puppet.customIntent = some c →
      ¬ (portal.IsPrivateChat = true ∧ portal.ThreadID = puppet.db.ID) →
      IntentFor (some puppet) portal = some c) := by
  refine ⟨?_, ?_, ?_⟩
  · intro h
    simp [IntentFor, h]
  · intro h1 h2
    simp [IntentFor, h1, h2]
  · intro c hc hn
    simp [IntentFor, hc, hn]

/-- Witness for `IntentFor_selects`: a puppet bound to a custom identity, in its own private
chat and in a group chat. -/
theorem IntentFor_selects_witness :
    IntentFor (some { freshPuppet with customIntent := some ⟨"@alice:example.org".toList⟩ })
      ⟨42, true⟩ = some (Intent (FormatPuppetMXID exampleConfig 42)) ∧
    IntentFor (some { freshPuppet with customIntent := some ⟨"@alice:example.org".toList⟩ })
      ⟨99, false⟩ = some ⟨"@alice:example.org".toList⟩ :=
  ⟨(IntentFor_selects { freshPuppet with customIntent := some ⟨"@alice:example.org".toList⟩ }
      ⟨42, true⟩).2.1 rfl rfl,
    (IntentFor_selects { freshPuppet with customIntent := some ⟨"@alice:example.org".toList⟩ }
      ⟨99, false⟩).2.2 _ rfl (by decide)⟩

/-! ## Profile synchroniser -/

theorem pathBase_ne_nil (p : Str) : pathBase p ≠ [] := by
  unfold pathBase
  split
  · simp
  · simp only []
    split
    · simp
    · assumption

/-- For a non-empty URL the fingerprint, when it is computed at all, is not empty. -/
theorem newAvatarIDOf_ne_nil (env : Env) (url nid : Str) (hurl : url ≠ [])
    (h : newAvatarIDOf env url = .ret nid) : nid ≠ [] := by
  unfold newAvatarIDOf at h
  rw [if_pos hurl] at h
  split at h
  · exact Outcome.noConfusion h
  · have := Outcome.ret.inj h
    rw [← this]
    exact pathBase_ne_nil _

/-- What `updateName` leaves behind, whichever branch it takes. -/
theorem updateName_post (cfg : Config) (rp : Replies) (puppet : Puppet) (name username : Str) :
    (puppet.updateName cfg rp name username).2.1.db.Name =
        cfg.FormatDisplayname ⟨name, username, puppet.db.ID⟩ ∧
    (puppet.updateName cfg rp name username).2.1.db.ID = puppet.db.ID ∧
    (puppet.updateName cfg rp name username).2.1.db.Username = puppet.db.Username := by
  unfold Puppet.updateName
  simp only []
  split
  · rename_i h
    exact ⟨h.2, rfl, rfl⟩
  · split <;> exact ⟨rfl, rfl, rfl⟩

theorem updateName_noop (cfg : Config) (rp : Replies) (puppet : Puppet) (name username : Str)
    (hset : puppet.db.NameSet = true)
    (hname : puppet.db.Name = cfg.FormatDisplayname ⟨name, username, puppet.db.ID⟩) :
    puppet.updateName cfg rp name username = (false, puppet, []) := by
  unfold Puppet.updateName
  simp only []
  rw [if_pos ⟨hset, hname⟩]

/-- What `Puppet.updateAvatar` leaves behind when it returns. -/
theorem updateAvatar_post (env : Env) (rp : Replies) (puppet : Puppet) (url : Str)
    (r : Bool × Puppet × List NetCall) (h : puppet.updateAvatar env rp url = .ret r) :
    newAvatarIDOf env url = .ret r.2.1.db.AvatarID ∧ r.2.1.db.ID = puppet.db.ID ∧
    r.2.1.db.Name = puppet.db.Name ∧ r.2.1.db.NameSet = puppet.db.NameSet ∧
    r.2.1.db.Username = puppet.db.Username := by
  unfold Puppet.updateAvatar Meta.updateAvatar at h
  cases hn : newAvatarIDOf env url with
  | panicked msg => simp [hn] at h
  | unmodelled => simp [hn] at h
  | ret nid =>
    simp only [hn] at h
    split at h
    · exact Outcome.noConfusion h
    · exact Outcome.noConfusion h
    · rename_i r0 hr0
      have hr := Outcome.ret.inj h
      subst hr
      refine ⟨?_, rfl, rfl, rfl, rfl⟩
      show Outcome.ret nid = Outcome.ret r0.2.1.avatarID
      congr 1
      split at hr0
      · rename_i hc
        have := Outcome.ret.inj hr0
        subst this
        exact hc.1.symm
      · split at hr0
        · split at hr0
          · have := Outcome.ret.inj hr0; subst this; rfl
          · split at hr0 <;> (have hh := Outcome.ret.inj hr0; subst hh; rfl)
        · split at hr0
          · have := Outcome.ret.inj hr0; subst this; rfl
          · split at hr0
            · have := Outcome.ret.inj hr0; subst this; rfl
            · split at hr0
              · have := Outcome.ret.inj hr0; subst this; rfl
              · split at hr0 <;> (have hh := Outcome.ret.inj hr0; subst hh; rfl)

theorem updateAvatar_noop (env : Env) (rp : Replies) (puppet : Puppet) (url : Str)
    (hid : newAvatarIDOf env url = .ret puppet.db.AvatarID) (hset : puppet.db.AvatarSet = true) :
    puppet.updateAvatar env rp url = .ret (false, puppet, []) := by
  obtain ⟨db, mxid, ci⟩ := puppet
  obtain ⟨i1, i2, i3, i4, i5, i6, i7, i8, i9⟩ := db
  simp only at hid hset
  subst hset
  unfold Puppet.updateAvatar Meta.updateAvatar
  simp [hid]

/-- `UpdateContactInfo` touches no field but `ContactInfoSet`. -/
theorem UpdateContactInfo_post (env : Env) (rp : Replies) (puppet : Puppet) :
    (puppet.UpdateContactInfo env rp).1.db.Name = puppet.db.Name ∧
    (puppet.UpdateContactInfo env rp).1.db.NameSet = puppet.db.NameSet ∧
    (puppet.UpdateContactInfo env rp).1.db.Username = puppet.db.Username ∧
    (puppet.UpdateContactInfo env rp).1.db.AvatarID = puppet.db.AvatarID ∧
    (puppet.UpdateContactInfo env rp).1.db.AvatarSet = puppet.db.AvatarSet ∧
    (puppet.UpdateContactInfo env rp).1.db.ID = puppet.db.ID := by
  unfold Puppet.UpdateContactInfo
  split
  · exact ⟨rfl, rfl, rfl, rfl, rfl, rfl⟩
  · simp only []
    split <;> exact ⟨rfl, rfl, rfl, rfl, rfl, rfl⟩

/-- After a returning call of `UpdateInfo` with a snapshot, the stored username, display
name and avatar fingerprint are the ones derived from that snapshot. -/
theorem UpdateInfo_post (cfg : Config) (env : Env) (rp : Replies) (puppet p1 : Puppet)
    (info : UserInfo) (t1 : List NetCall)
    (h : puppet.UpdateInfo cfg env rp (some info) = .ret (p1, t1)) :
    p1.db.Username = info.Username ∧
    p1.db.Name = cfg.FormatDisplayname ⟨info.Name, info.Username, p1.db.ID⟩ ∧
    newAvatarIDOf env info.AvatarURL = .ret p1.db.AvatarID := by
  unfold Puppet.UpdateInfo at h
  simp only [] at h
  generalize hp0 : (if decide (puppet.db.Username ≠ info.Username) = true then
        ({ puppet with db := { puppet.db with Username := info.Username } } : Puppet)
      else puppet) = p0 at h
  have hp0u : p0.db.Username = info.Username ∧ p0.db.ID = puppet.db.ID := by
    rw [← hp0]
    by_cases hu : puppet.db.Username = info.Username
    · simp [hu]
    · simp [hu]
  obtain ⟨hn1, hn2, hn3⟩ := updateName_post cfg rp p0 info.Name p0.db.Username
  generalize (p0.updateName cfg rp info.Name p0.db.Username) = n at h hn1 hn2 hn3
  cases ha : n.2.1.updateAvatar env rp info.AvatarURL with
  | panicked msg => simp [ha] at h
  | unmodelled => simp [ha] at h
  | ret a =>
    obtain ⟨ha1, ha2, ha3, _, ha5⟩ := updateAvatar_post env rp n.2.1 info.AvatarURL a ha
    simp only [ha] at h
    split at h
    · have hr := Outcome.ret.inj h
      obtain ⟨hc1, _, hc3, hc4, _, hc6⟩ := UpdateContactInfo_post env rp
        { a.2.1 with db := { a.2.1.db with ContactInfoSet := false } }
      have hp1 := (Prod.mk.inj hr).1
      rw [← hp1]
      refine ⟨?_, ?_, ?_⟩
      · rw [hc3]
        simp only []
        rw [ha5, hn3, hp0u.1]
      · rw [hc1, hc6]
        simp only []
        rw [ha3, hn1, ha2, hn2, hp0u.1]
      · rw [hc4]
        exact ha1
    · have hr := Outcome.ret.inj h
      have hp1 := (Prod.mk.inj hr).1
      rw [← hp1]
      refine ⟨?_, ?_, ?_⟩
      · rw [ha5, hn3, hp0u.1]
      · rw [ha3, hn1, ha2, hn2, hp0u.1]
      · exact ha1

/-- C7 (amended): idempotence of `UpdateInfo` after a confirmed call. When a call of
`UpdateInfo` returns and leaves `NameSet` and `AvatarSet` true (its display-name and avatar
writes, where it made any, succeeded), a second call with the same snapshot makes no call
at all (no display-name write, no avatar download, upload or write, no contact-metadata
write, no store update) and leaves the puppet, so also `NameSet`, `AvatarSet` and
`ContactInfoSet`, exactly as the first call left it, whatever the collaborators would have
answered. -/
theorem UpdateInfo_idempotent (cfg : Config) (env : Env) (rp1 rp2 : Replies) (puppet p1 : Puppet)
    (info : Option UserInfo) (t1 : List NetCall)
    (h1 : puppet.UpdateInfo cfg env rp1 info = .ret (p1, t1))
    (hflags : info ≠ none → p1.db.NameSet = true ∧ p1.db.AvatarSet = true) :
    p1.UpdateInfo cfg env rp2 info = .ret (p1, []) := by
  cases info with
  | none => rfl
  | some info =>
    obtain ⟨hu, hn, ha⟩ := UpdateInfo_post cfg env rp1 puppet p1 info t1 h1
    obtain ⟨hns, has⟩ := hflags (by simp)
    unfold Puppet.UpdateInfo
    have hd : decide (p1.db.Username ≠ info.Username) = false := by simp [hu]
    simp only [hd, Bool.false_eq_true, if_false]
    rw [hu, updateName_noop cfg rp2 p1 info.Name info.Username hns hn]
    simp only [updateAvatar_noop env rp2 p1 info.AvatarURL ha has]
    simp

/-- Witness for `UpdateInfo_idempotent`: the running example, every collaborator failing
during the second call. -/
theorem UpdateInfo_idempotent_witness :
    ∃ p1 t1, freshPuppet.UpdateInfo exampleConfig exampleEnv allOK (some aliceInfo) = .ret (p1, t1) ∧
      p1.db.NameSet = true ∧ p1.db.AvatarSet = true ∧
      p1.UpdateInfo exampleConfig exampleEnv ⟨true, none, none, true, true, true⟩ (some aliceInfo) =
        .ret (p1, []) :=
  ⟨_, _, rfl, rfl, rfl,
    UpdateInfo_idempotent exampleConfig exampleEnv allOK ⟨true, none, none, true, true, true⟩
      freshPuppet _ (some aliceInfo) _ rfl (fun _ => ⟨rfl, rfl⟩)⟩

/-- C7 (counterexample): when the display-name write of the first call fails, the second
call with the same snapshot writes the display name again and changes `NameSet`. -/
theorem UpdateInfo_second_call_writes :
    ∃ p1 t1 p2 t2,
      freshPuppet.UpdateInfo exampleConfig exampleEnv { allOK with setDisplayNameErr := true }
        (some aliceInfo) = .ret (p1, t1) ∧
      p1.UpdateInfo exampleConfig exampleEnv allOK (some aliceInfo) = .ret (p2, t2) ∧
      NetCall.setDisplayName p1.MXID "Alice".toList ∈ t2 ∧
      p1.db.NameSet = false ∧ p2.db.NameSet = true :=
  ⟨_, _, _, _, rfl, rfl, by decide, rfl, rfl⟩

/-- A call of `updateAvatar` that reached the upload and saw it fail. -/
theorem updateAvatar_upload_failed (env : Env) (rp : Replies) (url nid : Str) (a : AvatarState)
    (r : Bool × AvatarState × List NetCall) (hn : newAvatarIDOf env url = .ret nid)
    (h : updateAvatar env rp url a true = .ret r)
    (hup : ∃ d ct, NetCall.uploadBytes d ct ∈ r.2.2) (hfail : rp.upload = none) :
    r.1 = true ∧ r.2.1 = ⟨nid, false, []⟩ := by
  obtain ⟨d, ct, hmem⟩ := hup
  unfold updateAvatar at h
  simp only [hn, hfail] at h
  by_cases hc : a.avatarID = nid ∧ (a.avatarSet = true ∨ true = false)
  · rw [if_pos hc] at h
    have := Outcome.ret.inj h
    subst this
    simp at hmem
  · rw [if_neg hc] at h
    by_cases he : nid = []
    · simp only [he, if_true, Bool.true_eq_false, if_false] at h
      split at h <;> (have hh := Outcome.ret.inj h; subst hh; simp at hmem)
    · simp only [he, if_false] at h
      cases hd : rp.download with
      | none =>
        simp only [hd] at h
        have := Outcome.ret.inj h
        subst this
        simp at hmem
      | some data =>
        simp only [hd] at h
        have := Outcome.ret.inj h
        subst this
        exact ⟨rfl, rfl⟩

/-- A call of `updateAvatar` on an unconfirmed avatar with a non-empty fingerprint goes to
the network again. -/
theorem updateAvatar_retry (env : Env) (rp2 : Replies) (url nid aurl : Str)
    (hn : newAvatarIDOf env url = .ret nid) (hne : nid ≠ []) :
    ∃ a2 t2, updateAvatar env rp2 url ⟨nid, false, aurl⟩ true =
        .ret (true, a2, NetCall.downloadAvatar url :: t2) ∧
      ∀ data, rp2.download = some data →
        ∃ t3, t2 = NetCall.uploadBytes data (env.DetectContentType data) :: t3 := by
  unfold updateAvatar
  simp only [hn, hne, if_false, Bool.false_eq_true, Bool.true_eq_false, or_self, and_false]
  cases hd : rp2.download with
  | none => exact ⟨_, _, rfl, fun data h => Option.noConfusion h⟩
  | some data =>
    cases hu : rp2.upload with
    | none =>
      refine ⟨_, _, rfl, ?_⟩
      intro data2 h2
      have := Option.some.inj h2
      subst this
      exact ⟨_, rfl⟩
    | some uri =>
      cases hs : rp2.setAvatarErr with
      | true =>
        refine ⟨_, _, rfl, ?_⟩
        intro data2 h2
        have := Option.some.inj h2
        subst this
        exact ⟨_, rfl⟩
      | false =>
        refine ⟨_, _, rfl, ?_⟩
        intro data2 h2
        have := Option.some.inj h2
        subst this
        exact ⟨_, rfl⟩

/-- C8: an avatar failure is retried. When `Puppet.updateAvatar` is called with a non-empty
avatar URL, reaches the media upload and the upload fails, the call reports a change and
leaves `AvatarSet` false and the local avatar reference empty; a following call with the
same URL again reports a change, starts by downloading the avatar again, and uploads the
downloaded bytes whenever that download succeeds. -/
theorem avatar_upload_failure_retried (env : Env) (rp1 : Replies) (puppet : Puppet) (url : Str)
    (r1 : Bool × Puppet × List NetCall) (hurl : url ≠ [])
    (h1 : puppet.updateAvatar env rp1 url = .ret r1)
    (hup : ∃ d ct, NetCall.uploadBytes d ct ∈ r1.2.2) (hfail : rp1.upload = none) :
    r1.1 = true ∧ r1.2.1.db.AvatarSet = false ∧ r1.2.1.db.AvatarURL = [] ∧
    ∀ rp2 : Replies, ∃ p2 t2,
      r1.2.1.updateAvatar env rp2 url = .ret (true, p2, NetCall.downloadAvatar url :: t2) ∧
      ∀ data, rp2.download = some data →
        ∃ t3, t2 = NetCall.uploadBytes data (env.DetectContentType data) :: t3 := by
  have hpost := (updateAvatar_post env rp1 puppet url r1 h1).1
  have hne := newAvatarIDOf_ne_nil env url _ hurl hpost
  unfold Puppet.updateAvatar at h1
  cases hfree : Meta.updateAvatar env rp1 url
      ⟨puppet.db.AvatarID, puppet.db.AvatarSet, puppet.db.AvatarURL⟩ true with
  | panicked msg => simp [hfree] at h1
  | unmodelled => simp [hfree] at h1
  | ret r0 =>
    simp only [hfree] at h1
    have hr := Outcome.ret.inj h1
    subst hr
    obtain ⟨hch, hst⟩ := updateAvatar_upload_failed env rp1 url _ _ r0 hpost hfree hup hfail
    simp only [] at hst
    refine ⟨hch, ?_, ?_, ?_⟩
    · show r0.2.1.avatarSet = false
      rw [hst]
    · show r0.2.1.avatarURL = []
      rw [hst]
    · intro rp2
      obtain ⟨a2, t2, hcall, hdata⟩ := updateAvatar_retry env rp2 url _ r0.2.1.avatarURL hpost hne
      have hstate : (⟨r0.2.1.avatarID, r0.2.1.avatarSet, r0.2.1.avatarURL⟩ : AvatarState) =
          ⟨r0.2.1.avatarID, false, r0.2.1.avatarURL⟩ := by rw [hst]
      unfold Puppet.updateAvatar
      simp only []
      rw [hstate]
      simp only [] at hcall
      rw [hcall]
      exact ⟨_, t2, rfl, hdata⟩

/-- Witness for `avatar_upload_failure_retried`: a first avatar whose upload fails. -/
theorem avatar_upload_failure_retried_witness :
    ∃ r1, freshPuppet.updateAvatar exampleEnv { allOK with upload := none }
        "https://example.com/a.jpg".toList = .ret r1 ∧
      "https://example.com/a.jpg".toList ≠ [] ∧
      NetCall.uploadBytes [255, 216, 255, 224] "image/jpeg".toList ∈ r1.2.2 ∧
      r1.1 = true ∧ r1.2.1.db.AvatarSet = false ∧ r1.2.1.db.AvatarURL = [] := by
  have h := avatar_upload_failure_retried exampleEnv { allOK with upload := none } freshPuppet
    "https://example.com/a.jpg".toList _ (by decide) rfl
    ⟨[255, 216, 255, 224], "image/jpeg".toList, by decide⟩ rfl
  exact ⟨_, rfl, by decide, by decide, h.1, h.2.1, h.2.2.1⟩

/-- C10 (failing input): an avatar URL with a line feed in its path is rejected by
`url.Parse`; `updateAvatar` dereferences the nil result and panics instead of returning a
boolean, and so does `UpdateInfo` for a snapshot carrying that URL. -/
theorem updateAvatar_panics_on_rejected_url (cfg : Config) (env : Env) (rp : Replies)
    (a : AvatarState) (haveSetAvatar : Bool) (puppet : Puppet) (username name : Str) :
    updateAvatar env rp "https://example.com/a\nb.jpg".toList a haveSetAvatar =
      .panicked "runtime error: invalid memory address or nil pointer dereference" ∧
    puppet.UpdateInfo cfg env rp (some ⟨username, name, "https://example.com/a\nb.jpg".toList⟩) =
      .panicked "runtime error: invalid memory address or nil pointer dereference" := by
  have hid : newAvatarIDOf env "https://example.com/a\nb.jpg".toList =
      .panicked "runtime error: invalid memory address or nil pointer dereference" := by
    have hc : stringContainsCTLByte
        ("https://example.com/a\nb.jpg".toList.takeWhile (fun c => c != '#')) = true := by decide
    have hne : "https://example.com/a\nb.jpg".toList ≠ [] := by decide
    simp only [newAvatarIDOf, urlParsePath, hc, if_true, hne, ne_eq, not_false_eq_true]
  constructor
  · simp only [updateAvatar, hid]
  · simp only [Puppet.UpdateInfo, Puppet.updateAvatar, Meta.updateAvatar, hid]

end Meta
